import Mathlib

/-!
Formal model of `helpers/aggregate_parallel_files.py`, the script that
reconstructs one global gridded dataset per timestep from the per-tile
output files of a domain-decomposed simulation.

Conventions of the shallow embedding:

* netCDF attribute values are `AttrVal`: values on which Python's
  `int(...)` conversion succeeds are `intVal n`, every other value is
  `strVal s` (on which `int(...)` raises).
* numpy arrays are modelled as total functions from `Int` indices to `Int`
  cell values, tagged by their rank (`NpArray`).  A slice assignment
  `a[lo:hi, ...] = b[lo2:hi2, ...]` with equal slice lengths (the only case
  arising from the script's index arithmetic, see `agg_slices_same_length`)
  is modelled as the pointwise conditional update
  `fun i => if lo ≤ i ∧ i < hi then b (lo2 + (i - lo)) else a i`.
* Python exceptions abort the computation; they are modelled as
  `Except AggError`.  The `AggError` names follow the specification's error
  taxonomy: a missing or non-convertible extent attribute (Python `KeyError`
  / `ValueError`) is `MissingMetadataError`; a variable of unsupported rank
  in `set_up_dataset` (Python `UnboundLocalError` when it is the first
  variable, otherwise the `ValueError` raised by `xr.DataArray` because the
  stale `data` array from the previous loop iteration has a number of
  dimensions different from `len(dims)`) is `UnsupportedRankError`; a
  variable present in a tile but absent from the template (`KeyError` on
  `data_set[v]`) is `MissingVariableError`; a tile variable whose array rank
  differs from the template's (numpy broadcast failure) is
  `RankMismatchError`; indexing `all_data[0]` of an empty group (Python
  `IndexError`) is `EmptyGroupError`.  `TileGroupIncompleteError` appears in
  the specification's taxonomy and is included so that statements about it
  can be made; the script never constructs it.
* The filesystem is a finite association list from file names to the
  datasets stored in them; `glob.glob` returns exactly the names of
  existing files matching the pattern.
-/

namespace AggFiles

/-- A netCDF attribute value: `intVal` for integer-convertible values,
`strVal` for values on which Python `int(...)` raises. -/
inductive AttrVal where
  | intVal (n : Int)
  | strVal (s : String)
deriving DecidableEq

/-- An attribute mapping, as an association list in insertion order. -/
abbrev Attrs := List (String × AttrVal)

/-- The failure modes of the aggregation script, named after the
specification's error taxonomy (see the module comment for the Python
exception each one models). -/
inductive AggError where
  | MissingMetadataError
  | UnsupportedRankError
  | MissingVariableError
  | RankMismatchError
  | EmptyGroupError
  | TileGroupIncompleteError
deriving DecidableEq

/-- A numpy array, modelled as a total function from integer indices to
cell values and tagged with its rank.  `aOther` covers ranks outside 2..4,
which the script never allocates but may encounter in an input file. -/
inductive NpArray where
  | a2 (f : Int → Int → Int)
  | a3 (f : Int → Int → Int → Int)
  | a4 (f : Int → Int → Int → Int → Int)
  | aOther (rank : Nat) (f : List Int → Int)

/-- The rank (`ndim`) of a modelled numpy array. -/
def NpArray.rank : NpArray → Nat
  | .a2 _ => 2
  | .a3 _ => 3
  | .a4 _ => 4
  | .aOther r _ => r

/-- A variable of a tile dataset: ordered dimension-name tuple, attribute
mapping, and array payload. -/
structure TVar where
  dims : List String
  attrs : Attrs
  data : NpArray

/-- One tile file's dataset: global attributes, the dataset's
dimension-size map (`d.dims` in xarray), and the variables in iteration
order. -/
structure Dataset where
  attrs : Attrs
  dimSizes : List (String × Int)
  vars : List (String × TVar)

/-- A variable of the aggregated (template) dataset: dimension names and
attributes preserved from the reference tile, allocated shape, and data. -/
structure GVar where
  dims : List String
  attrs : Attrs
  shape : List Int
  data : NpArray

/-- The aggregated global dataset: top-level attributes copied from the
reference tile and the variables in iteration order. -/
structure GlobalDataset where
  attrs : Attrs
  vars : List (String × GVar)

/-- Python `int(dataset.attrs[key])`: `KeyError` when the attribute is
absent, `ValueError` when it is not integer-convertible; both are modelled
as `MissingMetadataError` per the specification's taxonomy. -/
def readIntAttr (a : Attrs) (key : String) : Except AggError Int :=
  match a.lookup key with
  | some (.intVal n) => .ok n
  | _ => .error .MissingMetadataError

/-- The six extent attribute names of one section, in the loop order of
`get_dims`: axis in `[i, j, k]` (outer loop) crossed with position in
`[s, e]` (inner loop). -/
def extent_keys (sec : String) : List String :=
  (["i", "j", "k"].map (fun axis => ["s", "e"].map (fun pos => axis ++ sec ++ pos))).flatten

/-- `get_dims(dataset, section)`: read the six global attributes defining
the domain (`"d"`), memory (`"m"`) or tile (`"t"`) space, in the order
(start_i, end_i, start_j, end_j, start_k, end_k). -/
def get_dims (d : Dataset) (sec : String) : Except AggError (List Int) :=
  (extent_keys sec).mapM (readIntAttr d.attrs)

/-- `get_dim_offset(dims)`: `x_offset = 1` iff the dimension tuple contains
the x-staggered marker `"lon_u"`, `y_offset = 1` iff it contains the
y-staggered marker `"lat_v"`, else `0`. -/
def get_dim_offset (dims : List String) : Int × Int :=
  let x_off : Int := if "lon_u" ∈ dims then 1 else 0
  let y_off : Int := if "lat_v" ∈ dims then 1 else 0
  (x_off, y_off)

/-- Look up a dimension size in the dataset's dimension-size map
(`d.dims[name]`; in xarray the name is always present for a dimension of an
existing variable, so the default is never reached on real data). -/
def dimSize (d : Dataset) (name : String) : Int :=
  ((d.dimSizes).lookup name).getD 0

/-- A zero-filled rank-2 array (`np.zeros`). -/
def zeros2 : NpArray := .a2 (fun _ _ => 0)

/-- A zero-filled rank-3 array (`np.zeros`). -/
def zeros3 : NpArray := .a3 (fun _ _ _ => 0)

/-- A zero-filled rank-4 array (`np.zeros`). -/
def zeros4 : NpArray := .a4 (fun _ _ _ _ => 0)

/-- The allocation of one template variable in `set_up_dataset`'s loop:
rank 2 gets `(ny + y_off, nx + x_off)`; rank 3 gets
`(d.dims[dims[0]], ny + y_off, nx + x_off)` (the leading size is taken from
the reference tile whether the leading axis is time or vertical); rank 4
gets `(d.dims[dims[0]], d.dims[dims[1]], ny + y_off, nx + x_off)`.  Any
other rank fails (Python `UnboundLocalError` or the `ValueError` raised by
`xr.DataArray` on the stale `data` of the previous iteration, whose rank is
in 2..4 and thus never matches). -/
def allocVar (d : Dataset) (nx ny : Int) (v : TVar) : Except AggError (List Int × NpArray) :=
  let off := get_dim_offset v.dims
  if v.dims.length = 2 then
    .ok ([ny + off.2, nx + off.1], zeros2)
  else if v.dims.length = 3 then
    .ok ([dimSize d (v.dims.getD 0 ""), ny + off.2, nx + off.1], zeros3)
  else if v.dims.length = 4 then
    .ok ([dimSize d (v.dims.getD 0 ""), dimSize d (v.dims.getD 1 ""), ny + off.2, nx + off.1], zeros4)
  else
    .error .UnsupportedRankError

/-- The `for v in d.variables` loop of `set_up_dataset`, producing the
template's variables in iteration order. -/
def setupVars (d : Dataset) (nx ny : Int) : List (String × TVar) → Except AggError (List (String × GVar))
  | [] => .ok []
  | (n, v) :: rest =>
      match allocVar d nx ny v with
      | .error e => .error e
      | .ok sd =>
        match setupVars d nx ny rest with
        | .error e => .error e
        | .ok tail => .ok ((n, ⟨v.dims, v.attrs, sd.1, sd.2⟩) :: tail)

/-- `set_up_dataset(d)`: read the domain extent from `d`, then allocate a
zero-filled global variable for every variable of `d` (the `nz` computed
from `kde - kds + 1` in the source is never used: rank-3 and rank-4 leading
sizes come from `d.dims`).  Top-level attributes are copied verbatim. -/
def set_up_dataset (d : Dataset) : Except AggError GlobalDataset :=
  match get_dims d "d" with
  | .ok [ids, ide, jds, jde, _kds, _kde] =>
      match setupVars d (ide - ids + 1) (jde - jds + 1) d.vars with
      | .error e => .error e
      | .ok vars => .ok ⟨d.attrs, vars⟩
  | .ok _ => .error .MissingMetadataError
  | .error e => .error e

/-- The twelve slice bounds computed per tile in `agg_file` (lines 110-116):
local (tile-in-memory) bounds `xts..zte` and global (tile-in-domain) bounds
`xs..ze`. -/
structure Slices where
  xts : Int
  xte : Int
  yts : Int
  yte : Int
  zts : Int
  zte : Int
  xs : Int
  xe : Int
  ys : Int
  ye : Int
  zs : Int
  ze : Int
deriving DecidableEq

/-- The index mapper: from the domain starts and the tile's memory and tile
extents, the half-open local slices `[xts, xte)`, `[yts, yte)`, `[zts, zte)`
and global slices `[xs, xe)`, `[ys, ye)`, `[zs, ze)`. -/
def agg_slices (ids jds kds ims jms kms its ite jts jte kts kte : Int) : Slices :=
  { xts := its - ims, xte := ite - ims + 1
  , yts := jts - jms, yte := jte - jms + 1
  , zts := kts - kms, zte := kte - kms + 1
  , xs := its - ids, xe := ite - ids + 1
  , ys := jts - jds, ye := jte - jds + 1
  , zs := kts - kds, ze := kte - kds + 1 }

/-- Whether a copy with horizontal widening `(x_off, y_off)` writes global
cell `(y, x)`: the destination slice is `[ys, ye + y_off) × [xs, xe + x_off)`. -/
def writesXY (sl : Slices) (x_off y_off y x : Int) : Bool :=
  decide (sl.ys ≤ y ∧ y < sl.ye + y_off ∧ sl.xs ≤ x ∧ x < sl.xe + x_off)

/-- Whether a copy writes global vertical index `z`: the destination slice
is `[zs, ze)` (never widened). -/
def writesZ (sl : Slices) (z : Int) : Bool :=
  decide (sl.zs ≤ z ∧ z < sl.ze)

/-- Source x index feeding global x index `x`: slice `[xts, ...)` element
by element against `[xs, ...)`. -/
def srcX (sl : Slices) (x : Int) : Int := sl.xts + (x - sl.xs)

/-- Source y index feeding global y index `y`. -/
def srcY (sl : Slices) (y : Int) : Int := sl.yts + (y - sl.ys)

/-- Source z index feeding global z index `z`. -/
def srcZ (sl : Slices) (z : Int) : Int := sl.zts + (z - sl.zs)

/-- The rank dispatch of the copy (`agg_file` lines 121-131) applied to the
template array `gdata` and tile array `tdata` of one variable:
rank 2 copies the unwidened `[ys, ye) × [xs, xe)` rectangle;
rank 3 with leading dimension named exactly `"time"` copies the whole
leading axis and the widened horizontal rectangle;
rank 3 otherwise slices the leading axis with the z mapping and widens the
horizontal rectangle; rank 4 copies the whole leading axis, the z slice,
and the widened horizontal rectangle.  A rank mismatch between template and
tile arrays is a numpy broadcast failure.  Ranks outside 2..4 match none of
the source's `if` branches (this function is only reached for ranks 2..4,
see `copy_one`). -/
def copy_data (sl : Slices) (dims : List String) (gdata tdata : NpArray) : Except AggError NpArray :=
  let off := get_dim_offset dims
  if dims.length = 2 then
    match gdata, tdata with
    | .a2 g, .a2 t =>
        .ok (.a2 (fun y x =>
          if writesXY sl 0 0 y x then t (srcY sl y) (srcX sl x) else g y x))
    | _, _ => .error .RankMismatchError
  else if dims.length = 3 then
    if dims.getD 0 "" = "time" then
      match gdata, tdata with
      | .a3 g, .a3 t =>
          .ok (.a3 (fun a y x =>
            if writesXY sl off.1 off.2 y x then t a (srcY sl y) (srcX sl x) else g a y x))
      | _, _ => .error .RankMismatchError
    else
      match gdata, tdata with
      | .a3 g, .a3 t =>
          .ok (.a3 (fun z y x =>
            if writesZ sl z && writesXY sl off.1 off.2 y x then
              t (srcZ sl z) (srcY sl y) (srcX sl x)
            else g z y x))
      | _, _ => .error .RankMismatchError
  else if dims.length = 4 then
    match gdata, tdata with
    | .a4 g, .a4 t =>
        .ok (.a4 (fun tt z y x =>
          if writesZ sl z && writesXY sl off.1 off.2 y x then
            t tt (srcZ sl z) (srcY sl y) (srcX sl x)
          else g tt z y x))
    | _, _ => .error .RankMismatchError
  else
    .ok gdata

/-- Replace the entry of variable `n` in the template's variable list (the
in-place mutation of `data_set[v].values`). -/
def updateVar (vs : List (String × GVar)) (n : String) (gv : GVar) : List (String × GVar) :=
  vs.map (fun p => if p.1 = n then (n, gv) else p)

/-- One iteration of the copy loop for variable `n` of a tile: when the
tile variable's rank is in 2..4 the template entry is looked up
(`data_set[v]`, a `KeyError` when absent) and updated through `copy_data`;
any other rank matches none of the source's `if` statements and the
template is left untouched. -/
def copy_one (sl : Slices) (g : GlobalDataset) (n : String) (tv : TVar) : Except AggError GlobalDataset :=
  if tv.dims.length = 2 ∨ tv.dims.length = 3 ∨ tv.dims.length = 4 then
    match g.vars.lookup n with
    | none => .error .MissingVariableError
    | some gv =>
      match copy_data sl tv.dims gv.data tv.data with
      | .error e => .error e
      | .ok newData => .ok ⟨g.attrs, updateVar g.vars n { gv with data := newData }⟩
  else
    .ok g

/-- The `for v in d.variables` copy loop of `agg_file` over one tile. -/
def copyVars (sl : Slices) (g : GlobalDataset) : List (String × TVar) → Except AggError GlobalDataset
  | [] => .ok g
  | (n, tv) :: rest =>
      match copy_one sl g n tv with
      | .error e => .error e
      | .ok g2 => copyVars sl g2 rest

/-- Processing of one tile dataset inside `agg_file`'s `for d in all_data`
loop: read the memory and tile extents, compute the twelve slice bounds,
and copy every variable.  Only `ids`, `jds`, `kds` of the domain extent are
used (as in the source); `ime`, `jme`, `kme` are read but unused. -/
def agg_tile (ids jds kds : Int) (g : GlobalDataset) (d : Dataset) : Except AggError GlobalDataset :=
  match get_dims d "m" with
  | .ok [ims, _ime, jms, _jme, kms, _kme] =>
    (match get_dims d "t" with
     | .ok [its, ite, jts, jte, kts, kte] =>
        copyVars (agg_slices ids jds kds ims jms kms its ite jts jte kts kte) g d.vars
     | .ok _ => .error .MissingMetadataError
     | .error e => .error e)
  | .ok _ => .error .MissingMetadataError
  | .error e => .error e

/-- The `for d in all_data` loop of `agg_file`: process each tile dataset
in order against the accumulated global dataset. -/
def aggLoop (ids jds kds : Int) (g : GlobalDataset) : List Dataset → Except AggError GlobalDataset
  | [] => .ok g
  | d :: rest =>
      match agg_tile ids jds kds g d with
      | .error e => .error e
      | .ok g2 => aggLoop ids jds kds g2 rest

/-- The per-group core of `agg_file`, applied to the loaded datasets in
sorted filename order: index `all_data[0]` (an `IndexError` on an empty
group), build the template from it, re-read its domain extent, and run the
copy loop over all datasets (the first one included). -/
def agg_core : List Dataset → Except AggError GlobalDataset
  | [] => .error .EmptyGroupError
  | first :: rest =>
      match set_up_dataset first with
      | .error e => .error e
      | .ok g0 =>
        match get_dims first "d" with
        | .ok [ids, _ide, jds, _jde, kds, _kde] =>
            aggLoop ids jds kds g0 (first :: rest)
        | .ok _ => .error .MissingMetadataError
        | .error e => .error e

/-- Replace every occurrence of `pat` by `rep` in `s`, with explicit fuel
(structural recursion; with `fuel ≥ s.length` this is Python's
`s.replace(pat, rep)` for a non-empty pattern). -/
def replaceListAux (rep pat : List Char) : Nat → List Char → List Char
  | 0, s => s
  | Nat.succ fuel, s =>
    match s with
    | [] => []
    | c :: rest =>
      if pat ≠ [] ∧ pat.isPrefixOf (c :: rest) then
        rep ++ replaceListAux rep pat fuel (List.drop (pat.length - 1) rest)
      else
        c :: replaceListAux rep pat fuel rest

/-- Python `s.replace(pat, rep)` on strings (model of `str.replace`). -/
def pyReplace (s pat rep : String) : String :=
  ⟨replaceListAux rep.data pat.data s.data.length s.data⟩

/-- Split a character list at every occurrence of `sep`. -/
def splitOnChar (sep : Char) : List Char → List (List Char)
  | [] => [[]]
  | c :: rest =>
    let r := splitOnChar sep rest
    if c = sep then [] :: r
    else
      match r with
      | [] => [[c]]
      | h :: t => (c :: h) :: t

/-- Whether a file name matches the `glob` pattern obtained by replacing
`"_001_"` with `"*"`.  Patterns with one `"*"` (a file name containing
`"_001_"` once, the intended convention) are matched exactly; the script's
inputs never produce other shapes. -/
def matchesPattern (pat name : String) : Bool :=
  match splitOnChar (Char.ofNat 42) pat.data with
  | [p] => name.data == p
  | [p, s] =>
      decide (p.length + s.length ≤ name.data.length) &&
        p.isPrefixOf name.data && s.isSuffixOf name.data
  | _ => false

/-- Insert a name into a sorted list, keeping ascending order. -/
def insertSorted (x : String) : List String → List String
  | [] => [x]
  | y :: rest => if decide (x ≤ y) then x :: y :: rest else y :: insertSorted x rest

/-- `list.sort()`: ascending lexicographic order on file names (stable
insertion sort; filenames of one group are distinct). -/
def sortNames : List String → List String
  | [] => []
  | x :: rest => insertSorted x (sortNames rest)

/-- `agg_file(first_file)` over a modelled filesystem `fs` (an association
list of existing file names to their datasets): replace `"_001_"` with
`"*"`, glob (which returns only names of existing files), sort, load every
matched file, aggregate, and write the result to the name obtained by
replacing `"_001_"` with `"_"`. -/
def agg_file (fs : List (String × Dataset)) (first_file : String) : Except AggError (String × GlobalDataset) :=
  let date_search := pyReplace first_file "_001_" "*"
  let this_date_files := sortNames ((fs.map Prod.fst).filter (fun n => matchesPattern date_search n))
  let all_data := this_date_files.filterMap (fun n => fs.lookup n)
  match agg_core all_data with
  | .error e => .error e
  | .ok g => .ok (pyReplace first_file "_001_" "_", g)

/-- Whether attribute `key` is present and integer-convertible. -/
def isIntAttr (a : Attrs) (key : String) : Bool :=
  match a.lookup key with
  | some (.intVal _) => true
  | _ => false

/-- The integer value of attribute `key` (meaningful when `isIntAttr`). -/
def attrInt (a : Attrs) (key : String) : Int :=
  match a.lookup key with
  | some (.intVal n) => n
  | _ => 0

/-- The size of the trailing (x) axis of an allocated shape. -/
def trailingXSize (shape : List Int) : Option Int := shape.reverse.head?

/-- The size of the next-to-trailing (y) axis of an allocated shape. -/
def trailingYSize (shape : List Int) : Option Int := shape.reverse.tail.head?

/-- The shape the template gives to variable `v` of dataset `d`, when
`set_up_dataset` succeeds and the variable exists. -/
def templateShape (d : Dataset) (v : String) : Option (List Int) :=
  match set_up_dataset d with
  | .ok g => (g.vars.lookup v).map (fun gv => gv.shape)
  | .error _ => none

/-- A small reference tile for witnesses: domain i in `[1,4]`, j in `[1,3]`,
k in `[1,2]`, and one rank-3 variable staggered in both directions. -/
def dsStag : Dataset :=
  { attrs := [("ids", .intVal 1), ("ide", .intVal 4), ("jds", .intVal 1),
              ("jde", .intVal 3), ("kds", .intVal 1), ("kde", .intVal 2)]
  , dimSizes := [("time", 2)]
  , vars := [("u", ⟨["time", "lat_v", "lon_u"], [], .a3 fun _ _ _ => 1⟩)] }

/-- The template `set_up_dataset` builds from `dsStag`, written out:
`nx = 4`, `ny = 3`, both offsets 1, leading size from the tile's `time`. -/
def dsStagTemplate : GlobalDataset :=
  { attrs := [("ids", .intVal 1), ("ide", .intVal 4), ("jds", .intVal 1),
              ("jde", .intVal 3), ("kds", .intVal 1), ("kde", .intVal 2)]
  , vars := [("u", ⟨["time", "lat_v", "lon_u"], [], [2, 3 + 1, 4 + 1], zeros3⟩)] }

/-- A tile dataset holding a well-formed rank-2 variable followed by a
rank-1 coordinate variable (an unsupported rank for the template builder). -/
def dsRank1 : Dataset :=
  { attrs := [("ids", .intVal 1), ("ide", .intVal 4), ("jds", .intVal 1),
              ("jde", .intVal 3), ("kds", .intVal 1), ("kde", .intVal 2)]
  , dimSizes := [("time", 2)]
  , vars := [("p", ⟨["lat", "lon"], [], .a2 fun _ _ => 3⟩),
             ("t", ⟨["time"], [], .aOther 1 fun _ => 0⟩)] }

/-- A reference tile whose vertical dimension size (5) differs from the
domain vertical extent `kde - kds + 1 = 3`, exposing how `set_up_dataset`
sizes vertical axes. -/
def dsVert : Dataset :=
  { attrs := [("ids", .intVal 1), ("ide", .intVal 4), ("jds", .intVal 1),
              ("jde", .intVal 3), ("kds", .intVal 1), ("kde", .intVal 3)]
  , dimSizes := [("level", 5), ("time", 2)]
  , vars := [("qv", ⟨["level", "lat", "lon"], [], .a3 fun _ _ _ => 2⟩),
             ("w", ⟨["time", "level", "lat", "lon"], [], .a4 fun _ _ _ _ => 3⟩)] }

/-- A concrete slice record for witnesses (tile `[3,5] × [3,6] × [1,4]` in
memory starting at `(2,2,1)` of a domain starting at `(1,1,1)`). -/
def slW : Slices := agg_slices 1 1 1 2 2 1 3 5 3 6 1 4

/-- Two tile datasets that agree on everything except possibly the six
domain-section extent attributes `ids, ide, jds, jde, kds, kde`. -/
def sameExceptDomain (d1 d2 : Dataset) : Prop :=
  d1.vars = d2.vars ∧ d1.dimSizes = d2.dimSizes ∧
    ∀ k, k ∉ extent_keys "d" → d1.attrs.lookup k = d2.attrs.lookup k

/-- The left half of a 2-tile split of the domain i in `[1,2]`,
j in `[1,2]`, k = 1: tile and memory both i = 1 (no halo). -/
def tileA : Dataset :=
  { attrs := [("ids", .intVal 1), ("ide", .intVal 2), ("jds", .intVal 1),
              ("jde", .intVal 2), ("kds", .intVal 1), ("kde", .intVal 1),
              ("ims", .intVal 1), ("ime", .intVal 1), ("jms", .intVal 1),
              ("jme", .intVal 2), ("kms", .intVal 1), ("kme", .intVal 1),
              ("its", .intVal 1), ("ite", .intVal 1), ("jts", .intVal 1),
              ("jte", .intVal 2), ("kts", .intVal 1), ("kte", .intVal 1)]
  , dimSizes := [("time", 1)]
  , vars := [("p", ⟨["lat", "lon"], [], .a2 fun y x => 100 + 10 * y + x⟩)] }

/-- The non-domain attributes of the right half (`tileB`). -/
def tileBAttrsTail : Attrs :=
  [("ide", .intVal 2), ("jds", .intVal 1), ("jde", .intVal 2),
   ("kds", .intVal 1), ("kde", .intVal 1),
   ("ims", .intVal 2), ("ime", .intVal 2), ("jms", .intVal 1),
   ("jme", .intVal 2), ("kms", .intVal 1), ("kme", .intVal 1),
   ("its", .intVal 2), ("ite", .intVal 2), ("jts", .intVal 1),
   ("jte", .intVal 2), ("kts", .intVal 1), ("kte", .intVal 1)]

/-- The variable list of the right half. -/
def tileBVars : List (String × TVar) :=
  [("p", ⟨["lat", "lon"], [], .a2 fun y x => 200 + 10 * y + x⟩)]

/-- The right half of the 2-tile split. -/
def tileB : Dataset :=
  ⟨("ids", .intVal 1) :: tileBAttrsTail, [("time", 1)], tileBVars⟩

/-- The right half with its domain attribute `ids` changed to an
inconsistent value. -/
def tileBBadDomain : Dataset :=
  ⟨("ids", .intVal 77) :: tileBAttrsTail, [("time", 1)], tileBVars⟩

/-- Whether an aggregation run succeeded. -/
def isOkE {α : Type} : Except AggError α → Bool
  | .ok _ => true
  | .error _ => false

/-- Read one cell of a rank-2 variable of an `agg_file` result. -/
def outCell2 (r : Except AggError (String × GlobalDataset)) (v : String) (y x : Int) : Option Int :=
  match r with
  | .ok (_, g) =>
    (match g.vars.lookup v with
     | some gv =>
       (match gv.data with
        | .a2 f => some (f y x)
        | _ => none)
     | none => none)
  | .error _ => none

/-- True unless the result is a `TileGroupIncompleteError`. -/
def notIncomplete {α : Type} : Except AggError α → Bool
  | .error .TileGroupIncompleteError => false
  | _ => true

/-- A filesystem holding only the first tile (`tileA`) of the 2-tile
group whose domain is i in `[1,2]`, j in `[1,2]`: the file of the second
tile (the one that owns global x = 1) is missing. -/
def fsMissing : List (String × Dataset) := [("icar_out_001_d1", tileA)]

/-- Decidable equality of `Except` results with decidable components. -/
instance {ε α : Type} [DecidableEq ε] [DecidableEq α] : DecidableEq (Except ε α) := fun x y =>
  match x, y with
  | .ok a, .ok b =>
      if h : a = b then isTrue (by rw [h]) else isFalse (fun hh => h (Except.ok.inj hh))
  | .error a, .error b =>
      if h : a = b then isTrue (by rw [h]) else isFalse (fun hh => h (Except.error.inj hh))
  | .ok _, .error _ => isFalse (fun hh => Except.noConfusion hh)
  | .error _, .ok _ => isFalse (fun hh => Except.noConfusion hh)

/-- The twelve extent integers of one tile: memory extent `ims..kme` and
tile extent `its..kte`. -/
structure TileExt where
  ims : Int
  ime : Int
  jms : Int
  jme : Int
  kms : Int
  kme : Int
  its : Int
  ite : Int
  jts : Int
  jte : Int
  kts : Int
  kte : Int
deriving DecidableEq

/-- The dataset's memory and tile extent attributes read back exactly the
twelve integers of `e`. -/
def extMatches (d : Dataset) (e : TileExt) : Prop :=
  get_dims d "m" = .ok [e.ims, e.ime, e.jms, e.jme, e.kms, e.kme] ∧
  get_dims d "t" = .ok [e.its, e.ite, e.jts, e.jte, e.kts, e.kte]

instance (d : Dataset) (e : TileExt) : Decidable (extMatches d e) :=
  inferInstanceAs (Decidable (_ ∧ _))

/-- The slice bounds `agg_file` computes for a tile with extents `e` of a
domain starting at `(ids, jds, kds)`. -/
def slicesOf (ids jds kds : Int) (e : TileExt) : Slices :=
  agg_slices ids jds kds e.ims e.jms e.kms e.its e.ite e.jts e.jte e.kts e.kte

/-- Whether the (unwidened) horizontal copy rectangle of the tile with
extents `e` contains the 0-based global cell `(y, x)`. -/
def writesRect (ids jds : Int) (e : TileExt) (y x : Int) : Prop :=
  e.jts - jds ≤ y ∧ y < e.jte - jds + 1 ∧ e.its - ids ≤ x ∧ x < e.ite - ids + 1

instance (ids jds : Int) (e : TileExt) (y x : Int) : Decidable (writesRect ids jds e y x) :=
  inferInstanceAs (Decidable (_ ∧ _ ∧ _ ∧ _))

/-- Horizontal (i, j) disjointness of two tile extents. -/
def rectDisjoint (e1 e2 : TileExt) : Prop :=
  e1.ite < e2.its ∨ e2.ite < e1.its ∨ e1.jte < e2.jts ∨ e2.jte < e1.jts

instance : DecidableRel rectDisjoint := fun e1 e2 =>
  inferInstanceAs (Decidable (_ ∨ _ ∨ _ ∨ _))

/-- How many of the tiles write the 0-based global cell `(y, x)` of an
unstaggered variable (whose copy rectangle is the unwidened one). -/
def writeCountRect (ids jds : Int) (exts : List TileExt) (y x : Int) : Nat :=
  (exts.filter (fun e => decide (writesRect ids jds e y x))).length

/-- How many of the tiles write the horizontal cell `(y, x)` of a variable
with dimension tuple `dims`, using the widened rectangle the copy actually
uses (`writesXY` with the variable's staggering offsets). -/
def writeCountVar (ids jds kds : Int) (dims : List String) (exts : List TileExt) (y x : Int) : Nat :=
  (exts.filter (fun e =>
    writesXY (slicesOf ids jds kds e) (get_dim_offset dims).1 (get_dim_offset dims).2 y x)).length

/-- The array constructor agrees with a dimension count in 2..4. -/
def ctorOK (data : NpArray) (len : Nat) : Prop :=
  match data with
  | .a2 _ => len = 2
  | .a3 _ => len = 3
  | .a4 _ => len = 4
  | .aOther _ _ => False

instance (data : NpArray) (len : Nat) : Decidable (ctorOK data len) := by
  unfold ctorOK
  cases data <;> infer_instance

/-- A tile variable whose array rank equals its dimension count (2..4). -/
def wellRanked (v : TVar) : Prop := ctorOK v.data v.dims.length

instance (v : TVar) : Decidable (wellRanked v) :=
  inferInstanceAs (Decidable (ctorOK _ _))

/-- The name-and-dimension signature of a dataset's variables. -/
def varSig (d : Dataset) : List (String × List String) :=
  d.vars.map (fun p => (p.1, p.2.dims))

/-- The template holds, for every signature entry, a variable with those
dimension names and a matching array constructor. -/
def templateOK (sig : List (String × List String)) (g : GlobalDataset) : Prop :=
  ∀ q ∈ sig, ∃ gv, g.vars.lookup q.1 = some gv ∧ gv.dims = q.2 ∧ ctorOK gv.data q.2.length

/-- All cells of the array over the horizontal position `(y, x)` hold the
zero fill. -/
def zeroAt (data : NpArray) (y x : Int) : Prop :=
  match data with
  | .a2 f => f y x = 0
  | .a3 f => ∀ a : Int, f a y x = 0
  | .a4 f => ∀ t z : Int, f t z y x = 0
  | .aOther _ _ => True

/-- The global array agrees at `(y, x)` with the tile array of the tile
with extents `e`, through the interior index mapping (`+ start_domain −
start_memory` on each axis); for vertical axes only the domain vertical
range `[0, kde − kds]` is constrained, for time axes every index. -/
def dataAgrees (dims : List String) (e : TileExt) (ids jds kds kde : Int)
    (gdata tdata : NpArray) (y x : Int) : Prop :=
  match gdata, tdata with
  | .a2 gf, .a2 tf => gf y x = tf (y + (jds - e.jms)) (x + (ids - e.ims))
  | .a3 gf, .a3 tf =>
      if dims.getD 0 "" = "time" then
        ∀ a : Int, gf a y x = tf a (y + (jds - e.jms)) (x + (ids - e.ims))
      else
        ∀ z : Int, 0 ≤ z → z ≤ kde - kds →
          gf z y x = tf (z + (kds - e.kms)) (y + (jds - e.jms)) (x + (ids - e.ims))
  | .a4 gf, .a4 tf =>
      ∀ t z : Int, 0 ≤ z → z ≤ kde - kds →
        gf t z y x = tf t (z + (kds - e.kms)) (y + (jds - e.jms)) (x + (ids - e.ims))
  | _, _ => False

/-- The array `copy_data` leaves behind, as a total function (the error
case, which the valid-group hypotheses rule out, returns the unchanged
global array). -/
def copy_data_fn (sl : Slices) (dims : List String) (gdata tdata : NpArray) : NpArray :=
  match copy_data sl dims gdata tdata with
  | .ok r => r
  | .error _ => gdata

/-- The state of one variable's global array after the tiles `proc` have
been copied in: cells written by no processed tile hold the zero fill, and
cells inside a processed tile's rectangle hold that tile's interior
values. -/
def varState (ids jds kds kde : Int) (n : String) (tvDims : List String)
    (proc : List (Dataset × TileExt)) (data : NpArray) : Prop :=
  ∀ y x : Int,
    ((∀ q ∈ proc, ¬ writesRect ids jds q.2 y x) → zeroAt data y x) ∧
    (∀ q ∈ proc, writesRect ids jds q.2 y x →
      ∃ tvd, q.1.vars.lookup n = some tvd ∧
        dataAgrees tvDims q.2 ids jds kds kde data tvd.data y x)

/-- Read one cell of a rank-3 variable of an `agg_core` result. -/
def outCell3 (r : Except AggError GlobalDataset) (v : String) (a y x : Int) : Option Int :=
  match r with
  | .ok g =>
    (match g.vars.lookup v with
     | some gv =>
       (match gv.data with
        | .a3 f => some (f a y x)
        | _ => none)
     | none => none)
  | .error _ => none

/-- The horizontal covering property: every global point of the domain
rectangle lies in some tile's tile extent. -/
def coversDomain (ids ide jds jde : Int) (exts : List TileExt) : Prop :=
  ∀ gx ∈ Finset.Icc ids ide, ∀ gy ∈ Finset.Icc jds jde,
    ∃ e ∈ exts, e.its ≤ gx ∧ gx ≤ e.ite ∧ e.jts ≤ gy ∧ gy ≤ e.jte

instance (ids ide jds jde : Int) (exts : List TileExt) :
    Decidable (coversDomain ids ide jds jde exts) := by
  unfold coversDomain
  infer_instance

/-- One-tile dataset staggered in x: left half of the domain i in `[1,2]`,
j = 1, k = 1, value 10 everywhere. -/
def uTile1 : Dataset :=
  { attrs := [("ids", .intVal 1), ("ide", .intVal 2), ("jds", .intVal 1),
              ("jde", .intVal 1), ("kds", .intVal 1), ("kde", .intVal 1),
              ("ims", .intVal 1), ("ime", .intVal 1), ("jms", .intVal 1),
              ("jme", .intVal 1), ("kms", .intVal 1), ("kme", .intVal 1),
              ("its", .intVal 1), ("ite", .intVal 1), ("jts", .intVal 1),
              ("jte", .intVal 1), ("kts", .intVal 1), ("kte", .intVal 1)]
  , dimSizes := [("time", 1)]
  , vars := [("u", ⟨["time", "lat", "lon_u"], [], .a3 fun _ _ _ => 10⟩)] }

/-- The staggered right half, value 20 everywhere. -/
def uTile2 : Dataset :=
  { attrs := [("ids", .intVal 1), ("ide", .intVal 2), ("jds", .intVal 1),
              ("jde", .intVal 1), ("kds", .intVal 1), ("kde", .intVal 1),
              ("ims", .intVal 2), ("ime", .intVal 2), ("jms", .intVal 1),
              ("jme", .intVal 1), ("kms", .intVal 1), ("kme", .intVal 1),
              ("its", .intVal 2), ("ite", .intVal 2), ("jts", .intVal 1),
              ("jte", .intVal 1), ("kts", .intVal 1), ("kte", .intVal 1)]
  , dimSizes := [("time", 1)]
  , vars := [("u", ⟨["time", "lat", "lon_u"], [], .a3 fun _ _ _ => 20⟩)] }

/-- Extents of `uTile1`. -/
def uExt1 : TileExt := ⟨1, 1, 1, 1, 1, 1, 1, 1, 1, 1, 1, 1⟩

/-- Extents of `uTile2`. -/
def uExt2 : TileExt := ⟨2, 2, 1, 1, 1, 1, 2, 2, 1, 1, 1, 1⟩

/-- Extents of `tileA`. -/
def extA : TileExt := ⟨1, 1, 1, 2, 1, 1, 1, 1, 1, 2, 1, 1⟩

/-- Extents of `tileB`. -/
def extB : TileExt := ⟨2, 2, 1, 2, 1, 1, 2, 2, 1, 2, 1, 1⟩

/-! ## Theorems -/

/-- Bind on a successful `Except` computation. -/
theorem ok_bind {ε α β : Type} (a : α) (f : α → Except ε β) :
    (Except.ok a >>= f : Except ε β) = f a := rfl

/-- Bind on a failed `Except` computation. -/
theorem error_bind {ε α β : Type} (e : ε) (f : α → Except ε β) :
    ((Except.error e : Except ε α) >>= f) = .error e := rfl

/-- C2: for all integer extents with tile ⊆ memory (component-wise) and
tile ⊆ domain, and for each axis, the local slice and the global slice
computed by the index mapper have equal length, both equal to
`tile_end - tile_start + 1`. -/
theorem agg_slices_same_length
    (ids ide jds jde kds kde ims ime jms jme kms kme its ite jts jte kts kte : Int)
    (hmx1 : ims ≤ its) (hmx2 : ite ≤ ime)
    (hmy1 : jms ≤ jts) (hmy2 : jte ≤ jme)
    (hmz1 : kms ≤ kts) (hmz2 : kte ≤ kme)
    (hdx1 : ids ≤ its) (hdx2 : ite ≤ ide)
    (hdy1 : jds ≤ jts) (hdy2 : jte ≤ jde)
    (hdz1 : kds ≤ kts) (hdz2 : kte ≤ kde) :
    (agg_slices ids jds kds ims jms kms its ite jts jte kts kte).xte -
      (agg_slices ids jds kds ims jms kms its ite jts jte kts kte).xts = ite - its + 1 ∧
    (agg_slices ids jds kds ims jms kms its ite jts jte kts kte).xe -
      (agg_slices ids jds kds ims jms kms its ite jts jte kts kte).xs = ite - its + 1 ∧
    (agg_slices ids jds kds ims jms kms its ite jts jte kts kte).yte -
      (agg_slices ids jds kds ims jms kms its ite jts jte kts kte).yts = jte - jts + 1 ∧
    (agg_slices ids jds kds ims jms kms its ite jts jte kts kte).ye -
      (agg_slices ids jds kds ims jms kms its ite jts jte kts kte).ys = jte - jts + 1 ∧
    (agg_slices ids jds kds ims jms kms its ite jts jte kts kte).zte -
      (agg_slices ids jds kds ims jms kms its ite jts jte kts kte).zts = kte - kts + 1 ∧
    (agg_slices ids jds kds ims jms kms its ite jts jte kts kte).ze -
      (agg_slices ids jds kds ims jms kms its ite jts jte kts kte).zs = kte - kts + 1 := by
  simp only [agg_slices]
  omega

/-- Witness for `agg_slices_same_length` at a concrete extent triple. -/
theorem agg_slices_same_length_witness :
    (agg_slices 1 1 1 2 2 1 3 5 3 6 1 4).xte -
      (agg_slices 1 1 1 2 2 1 3 5 3 6 1 4).xts = 5 - 3 + 1 ∧
    (agg_slices 1 1 1 2 2 1 3 5 3 6 1 4).xe -
      (agg_slices 1 1 1 2 2 1 3 5 3 6 1 4).xs = 5 - 3 + 1 ∧
    (agg_slices 1 1 1 2 2 1 3 5 3 6 1 4).yte -
      (agg_slices 1 1 1 2 2 1 3 5 3 6 1 4).yts = 6 - 3 + 1 ∧
    (agg_slices 1 1 1 2 2 1 3 5 3 6 1 4).ye -
      (agg_slices 1 1 1 2 2 1 3 5 3 6 1 4).ys = 6 - 3 + 1 ∧
    (agg_slices 1 1 1 2 2 1 3 5 3 6 1 4).zte -
      (agg_slices 1 1 1 2 2 1 3 5 3 6 1 4).zts = 4 - 1 + 1 ∧
    (agg_slices 1 1 1 2 2 1 3 5 3 6 1 4).ze -
      (agg_slices 1 1 1 2 2 1 3 5 3 6 1 4).zs = 4 - 1 + 1 :=
  agg_slices_same_length 1 9 1 9 1 4 2 7 2 8 1 4 3 5 3 6 1 4
    (by decide) (by decide) (by decide) (by decide) (by decide) (by decide)
    (by decide) (by decide) (by decide) (by decide) (by decide) (by decide)

/-- Reading an integer-convertible attribute succeeds with its value. -/
theorem readIntAttr_of_isIntAttr (a : Attrs) (k : String) (h : isIntAttr a k = true) :
    readIntAttr a k = .ok (attrInt a k) := by
  unfold isIntAttr at h
  unfold readIntAttr attrInt
  cases hl : a.lookup k with
  | none => rw [hl] at h; exact absurd h (by simp)
  | some v =>
    cases v with
    | intVal n => simp [hl]
    | strVal s => rw [hl] at h; exact absurd h (by simp)

/-- Reading an absent or non-convertible attribute fails. -/
theorem readIntAttr_of_not_isIntAttr (a : Attrs) (k : String) (h : isIntAttr a k = false) :
    readIntAttr a k = .error .MissingMetadataError := by
  unfold isIntAttr at h
  unfold readIntAttr
  cases hl : a.lookup k with
  | none => simp [hl]
  | some v =>
    cases v with
    | intVal n => rw [hl] at h; exact absurd h (by simp)
    | strVal s => simp [hl]

/-- The extent keys of a section, written out. -/
theorem extent_keys_eq (sec : String) :
    extent_keys sec =
      ["i" ++ sec ++ "s", "i" ++ sec ++ "e", "j" ++ sec ++ "s",
       "j" ++ sec ++ "e", "k" ++ sec ++ "s", "k" ++ sec ++ "e"] := by
  simp [extent_keys]

/-- Mapping `readIntAttr` over keys fails as soon as one key is bad. -/
theorem mapM_readIntAttr_error (a : Attrs) (ks : List String)
    (h : ∃ k ∈ ks, isIntAttr a k = false) :
    ks.mapM (readIntAttr a) = .error .MissingMetadataError := by
  induction ks with
  | nil => simp at h
  | cons k0 rest ih =>
    rw [List.mapM_cons]
    by_cases h0 : isIntAttr a k0 = true
    · rcases h with ⟨k, hk, hbad⟩
      rcases List.mem_cons.mp hk with rfl | hk'
      · rw [h0] at hbad; exact absurd hbad (by simp)
      · rw [readIntAttr_of_isIntAttr a k0 h0, ih ⟨k, hk', hbad⟩]
        rfl
    · rw [readIntAttr_of_not_isIntAttr a k0 (by simpa using h0)]
      rfl

/-- C8: for every dataset and section, `get_dims` returns the six extent
integers in the order (start_i, end_i, start_j, end_j, start_k, end_k) when
all six attributes `{i,j,k} × {s,e}` of the section are present and
integer-convertible, and fails with `MissingMetadataError` when any of them
is absent or not integer-convertible (the function is pure, so it has no
side effects). -/
theorem get_dims_spec (d : Dataset) (sec : String) :
    ((∀ k ∈ extent_keys sec, isIntAttr d.attrs k = true) →
      get_dims d sec = .ok
        [attrInt d.attrs ("i" ++ sec ++ "s"), attrInt d.attrs ("i" ++ sec ++ "e"),
         attrInt d.attrs ("j" ++ sec ++ "s"), attrInt d.attrs ("j" ++ sec ++ "e"),
         attrInt d.attrs ("k" ++ sec ++ "s"), attrInt d.attrs ("k" ++ sec ++ "e")]) ∧
    ((∃ k ∈ extent_keys sec, isIntAttr d.attrs k = false) →
      get_dims d sec = .error .MissingMetadataError) := by
  constructor
  · intro h
    have h1 := h ("i" ++ sec ++ "s") (by simp [extent_keys])
    have h2 := h ("i" ++ sec ++ "e") (by simp [extent_keys])
    have h3 := h ("j" ++ sec ++ "s") (by simp [extent_keys])
    have h4 := h ("j" ++ sec ++ "e") (by simp [extent_keys])
    have h5 := h ("k" ++ sec ++ "s") (by simp [extent_keys])
    have h6 := h ("k" ++ sec ++ "e") (by simp [extent_keys])
    unfold get_dims
    rw [extent_keys_eq]
    simp only [List.mapM_cons, List.mapM_nil,
      readIntAttr_of_isIntAttr _ _ h1, readIntAttr_of_isIntAttr _ _ h2,
      readIntAttr_of_isIntAttr _ _ h3, readIntAttr_of_isIntAttr _ _ h4,
      readIntAttr_of_isIntAttr _ _ h5, readIntAttr_of_isIntAttr _ _ h6]
    rfl
  · intro h
    exact mapM_readIntAttr_error d.attrs (extent_keys sec) h

/-- Concrete datasets for the `get_dims` witness: one with all six memory
attributes integer-valued, one with `jms` present but not
integer-convertible. -/
def get_dims_good : Dataset :=
  { attrs := [("ims", .intVal 3), ("ime", .intVal 4), ("jms", .intVal 5),
              ("jme", .intVal 6), ("kms", .intVal 7), ("kme", .intVal 8)]
  , dimSizes := []
  , vars := [] }

/-- A dataset whose `jms` attribute is a non-convertible string. -/
def get_dims_bad : Dataset :=
  { attrs := [("ims", .intVal 3), ("ime", .intVal 4), ("jms", .strVal "oops"),
              ("jme", .intVal 6), ("kms", .intVal 7), ("kme", .intVal 8)]
  , dimSizes := []
  , vars := [] }

/-- Witness for `get_dims_spec`: on `get_dims_good` the six memory extents
come back in order; on `get_dims_bad` the read fails. -/
theorem get_dims_spec_witness :
    get_dims get_dims_good "m" =
      .ok [attrInt get_dims_good.attrs "ims", attrInt get_dims_good.attrs "ime",
           attrInt get_dims_good.attrs "jms", attrInt get_dims_good.attrs "jme",
           attrInt get_dims_good.attrs "kms", attrInt get_dims_good.attrs "kme"] ∧
    get_dims get_dims_bad "m" = .error .MissingMetadataError :=
  ⟨(get_dims_spec get_dims_good "m").1 (by decide),
   (get_dims_spec get_dims_bad "m").2 ⟨"jms", by decide, by decide⟩⟩

/-- Every variable of a successfully built template list comes from a tile
variable with the same name and dimension tuple, through `allocVar`. -/
theorem setupVars_mem (d : Dataset) (nx ny : Int) (vs : List (String × TVar))
    (gvs : List (String × GVar)) (h : setupVars d nx ny vs = .ok gvs) :
    ∀ p ∈ gvs, ∃ q ∈ vs, p.1 = q.1 ∧ p.2.dims = q.2.dims ∧ p.2.attrs = q.2.attrs ∧
      allocVar d nx ny q.2 = .ok (p.2.shape, p.2.data) := by
  induction vs generalizing gvs with
  | nil =>
    unfold setupVars at h
    cases h
    intro p hp
    simp at hp
  | cons q rest ih =>
    obtain ⟨n, v⟩ := q
    unfold setupVars at h
    cases ha : allocVar d nx ny v with
    | error e => rw [ha] at h; exact absurd h (by simp)
    | ok sd =>
      rw [ha] at h
      cases hs : setupVars d nx ny rest with
      | error e => rw [hs] at h; exact absurd h (by simp)
      | ok tail =>
        rw [hs] at h
        cases h
        intro p hp
        rcases List.mem_cons.mp hp with rfl | hp'
        · exact ⟨(n, v), List.mem_cons_self _ _, rfl, rfl, rfl, ha⟩
        · obtain ⟨q, hq, h1, h2, h3, h4⟩ := ih tail hs p hp'
          exact ⟨q, List.mem_cons_of_mem _ hq, h1, h2, h3, h4⟩

/-- The shape allocated for a supported-rank variable has trailing x size
`nx + x_offset` and trailing y size `ny + y_offset`. -/
theorem allocVar_trailing (d : Dataset) (nx ny : Int) (v : TVar)
    (shape : List Int) (data : NpArray)
    (h : allocVar d nx ny v = .ok (shape, data)) :
    trailingXSize shape = some (nx + (if "lon_u" ∈ v.dims then 1 else 0)) ∧
    trailingYSize shape = some (ny + (if "lat_v" ∈ v.dims then 1 else 0)) := by
  unfold allocVar at h
  split at h
  · cases h; simp [trailingXSize, trailingYSize, get_dim_offset]
  · split at h
    · cases h; simp [trailingXSize, trailingYSize, get_dim_offset]
    · split at h
      · cases h; simp [trailingXSize, trailingYSize, get_dim_offset]
      · exact absurd h (by simp)

/-- C3: in the template built by `set_up_dataset`, every variable's
trailing x-axis size equals `domain_nx + 1` (`domain_nx = ide - ids + 1`)
iff its dimension tuple contains the x-staggered marker `"lon_u"` and
`domain_nx` otherwise, and its trailing y-axis size equals `domain_ny + 1`
(`domain_ny = jde - jds + 1`) iff the tuple contains the y-staggered marker
`"lat_v"` and `domain_ny` otherwise; each offset is `0` or `1` and both can
be `1` at once. -/
theorem template_trailing_sizes (d : Dataset) (g : GlobalDataset)
    (ids ide jds jde kds kde : Int)
    (hdom : get_dims d "d" = .ok [ids, ide, jds, jde, kds, kde])
    (hok : set_up_dataset d = .ok g) :
    ∀ p ∈ g.vars,
      trailingXSize p.2.shape =
        some ((ide - ids + 1) + (if "lon_u" ∈ p.2.dims then 1 else 0)) ∧
      trailingYSize p.2.shape =
        some ((jde - jds + 1) + (if "lat_v" ∈ p.2.dims then 1 else 0)) := by
  simp only [set_up_dataset, hdom] at hok
  cases hs : setupVars d (ide - ids + 1) (jde - jds + 1) d.vars with
  | error e => rw [hs] at hok; exact absurd hok (by simp)
  | ok gvs =>
    rw [hs] at hok
    cases hok
    intro p hp
    obtain ⟨q, _, _, hdims, _, halloc⟩ := setupVars_mem _ _ _ _ _ hs p hp
    rw [hdims]
    exact allocVar_trailing _ _ _ _ _ _ halloc

/-- Witness for `template_trailing_sizes` on `dsStag`: the doubly staggered
rank-3 variable gets trailing sizes `nx + 1` and `ny + 1`. -/
theorem template_trailing_sizes_witness :
    trailingXSize ("u", (⟨["time", "lat_v", "lon_u"], [], [2, 3 + 1, 4 + 1], zeros3⟩ : GVar)).2.shape =
      some ((4 - 1 + 1) +
        (if "lon_u" ∈ ("u", (⟨["time", "lat_v", "lon_u"], [], [2, 3 + 1, 4 + 1], zeros3⟩ : GVar)).2.dims then 1 else 0)) ∧
    trailingYSize ("u", (⟨["time", "lat_v", "lon_u"], [], [2, 3 + 1, 4 + 1], zeros3⟩ : GVar)).2.shape =
      some ((3 - 1 + 1) +
        (if "lat_v" ∈ ("u", (⟨["time", "lat_v", "lon_u"], [], [2, 3 + 1, 4 + 1], zeros3⟩ : GVar)).2.dims then 1 else 0)) :=
  template_trailing_sizes dsStag dsStagTemplate 1 4 1 3 1 2 (by rfl) (by rfl)
    ("u", ⟨["time", "lat_v", "lon_u"], [], [2, 3 + 1, 4 + 1], zeros3⟩)
    (List.mem_singleton.mpr rfl)

/-- Allocation of a variable whose rank is outside 2..4 fails. -/
theorem allocVar_unsupported (d : Dataset) (nx ny : Int) (v : TVar)
    (h : v.dims.length < 2 ∨ 4 < v.dims.length) :
    allocVar d nx ny v = .error .UnsupportedRankError := by
  unfold allocVar
  rw [if_neg (by omega), if_neg (by omega), if_neg (by omega)]

/-- Allocation of a variable of rank 2, 3 or 4 succeeds. -/
theorem allocVar_supported (d : Dataset) (nx ny : Int) (v : TVar)
    (h : 2 ≤ v.dims.length ∧ v.dims.length ≤ 4) :
    ∃ sd, allocVar d nx ny v = .ok sd := by
  unfold allocVar
  have : v.dims.length = 2 ∨ v.dims.length = 3 ∨ v.dims.length = 4 := by omega
  rcases this with h2 | h3 | h4
  · rw [if_pos h2]; exact ⟨_, rfl⟩
  · rw [if_neg (by omega), if_pos h3]; exact ⟨_, rfl⟩
  · rw [if_neg (by omega), if_neg (by omega), if_pos h4]; exact ⟨_, rfl⟩

/-- If any listed variable has unsupported rank, the template loop fails. -/
theorem setupVars_unsupported (d : Dataset) (nx ny : Int)
    (vs : List (String × TVar))
    (h : ∃ p ∈ vs, p.2.dims.length < 2 ∨ 4 < p.2.dims.length) :
    setupVars d nx ny vs = .error .UnsupportedRankError := by
  induction vs with
  | nil => simp at h
  | cons q rest ih =>
    obtain ⟨n, v⟩ := q
    unfold setupVars
    by_cases hv : v.dims.length < 2 ∨ 4 < v.dims.length
    · rw [allocVar_unsupported d nx ny v hv]
    · obtain ⟨sd, ha⟩ := allocVar_supported d nx ny v (by omega)
      rw [ha]
      rcases h with ⟨p, hp, hbad⟩
      rcases List.mem_cons.mp hp with rfl | hp'
      · exact absurd hbad hv
      · rw [ih ⟨p, hp', hbad⟩]

/-- C7: if the reference tile has any variable with fewer than 2 or more
than 4 dimensions, `set_up_dataset` fails with `UnsupportedRankError`
(Python: `UnboundLocalError` on the unbound `data` when it is the first
variable, else the `ValueError` of `xr.DataArray` on the stale `data`). -/
theorem set_up_dataset_unsupported_rank (d : Dataset)
    (a0 a1 a2 a3 a4 a5 : Int)
    (hdom : get_dims d "d" = .ok [a0, a1, a2, a3, a4, a5])
    (hbad : ∃ p ∈ d.vars, p.2.dims.length < 2 ∨ 4 < p.2.dims.length) :
    set_up_dataset d = .error .UnsupportedRankError := by
  simp only [set_up_dataset, hdom]
  rw [setupVars_unsupported _ _ _ _ hbad]

/-- Witness for `set_up_dataset_unsupported_rank`: the rank-1 coordinate
variable of `dsRank1` aborts the template build. -/
theorem set_up_dataset_unsupported_rank_witness :
    set_up_dataset dsRank1 = .error .UnsupportedRankError :=
  set_up_dataset_unsupported_rank dsRank1 1 4 1 3 1 2 (by rfl)
    ⟨("t", ⟨["time"], [], .aOther 1 fun _ => 0⟩), by
      simp [dsRank1], by decide⟩

/-- C9: a rank-3 variable goes to the time-axis copy path (leading axis
copied whole, index unchanged) iff its first dimension name is exactly
`"time"`; any other leading name takes the vertical path, where the leading
axis is sliced with the z mapping; and the template builder sizes the
leading axis from the tile's dimension-size map in both cases, without
distinguishing them. -/
theorem rank3_time_dispatch (sl : Slices) (dims : List String)
    (g t : Int → Int → Int → Int) (d : Dataset) (nx ny : Int) (v : TVar)
    (h3 : dims.length = 3) (hv3 : v.dims.length = 3) :
    (dims.getD 0 "" = "time" →
      copy_data sl dims (.a3 g) (.a3 t) =
        .ok (.a3 (fun a y x =>
          if writesXY sl (get_dim_offset dims).1 (get_dim_offset dims).2 y x then
            t a (srcY sl y) (srcX sl x)
          else g a y x))) ∧
    (dims.getD 0 "" ≠ "time" →
      copy_data sl dims (.a3 g) (.a3 t) =
        .ok (.a3 (fun z y x =>
          if writesZ sl z && writesXY sl (get_dim_offset dims).1 (get_dim_offset dims).2 y x then
            t (srcZ sl z) (srcY sl y) (srcX sl x)
          else g z y x))) ∧
    allocVar d nx ny v =
      .ok ([dimSize d (v.dims.getD 0 ""), ny + (get_dim_offset v.dims).2,
            nx + (get_dim_offset v.dims).1], zeros3) := by
  refine ⟨fun ht => ?_, fun ht => ?_, ?_⟩
  · unfold copy_data
    rw [if_neg (by omega), if_pos h3, if_pos ht]
  · unfold copy_data
    rw [if_neg (by omega), if_pos h3, if_neg ht]
  · unfold allocVar
    rw [if_neg (by omega), if_pos hv3]

/-- Witness for `rank3_time_dispatch`: a `["time", ...]` variable takes the
whole-leading-axis path, a `["level", ...]` variable takes the z-sliced
path, and `dsStag`'s rank-3 variable is allocated with its tile `time`
size 2 in front. -/
theorem rank3_time_dispatch_witness :
    copy_data slW ["time", "lat", "lon"] (.a3 fun _ _ _ => 0) (.a3 fun _ _ _ => 5) =
      .ok (.a3 (fun a y x =>
        if writesXY slW (get_dim_offset ["time", "lat", "lon"]).1
            (get_dim_offset ["time", "lat", "lon"]).2 y x then
          (fun _ _ _ => (5 : Int)) a (srcY slW y) (srcX slW x)
        else (fun _ _ _ => (0 : Int)) a y x)) ∧
    copy_data slW ["level", "lat", "lon"] (.a3 fun _ _ _ => 0) (.a3 fun _ _ _ => 5) =
      .ok (.a3 (fun z y x =>
        if writesZ slW z && writesXY slW (get_dim_offset ["level", "lat", "lon"]).1
            (get_dim_offset ["level", "lat", "lon"]).2 y x then
          (fun _ _ _ => (5 : Int)) (srcZ slW z) (srcY slW y) (srcX slW x)
        else (fun _ _ _ => (0 : Int)) z y x)) ∧
    allocVar dsStag 4 3 ⟨["time", "lat_v", "lon_u"], [], .a3 fun _ _ _ => 1⟩ =
      .ok ([dimSize dsStag (["time", "lat_v", "lon_u"].getD 0 ""),
            3 + (get_dim_offset ["time", "lat_v", "lon_u"]).2,
            4 + (get_dim_offset ["time", "lat_v", "lon_u"]).1], zeros3) :=
  ⟨(rank3_time_dispatch slW ["time", "lat", "lon"] (fun _ _ _ => 0) (fun _ _ _ => 5)
      dsStag 4 3 ⟨["time", "lat_v", "lon_u"], [], .a3 fun _ _ _ => 1⟩ rfl rfl).1 rfl,
   (rank3_time_dispatch slW ["level", "lat", "lon"] (fun _ _ _ => 0) (fun _ _ _ => 5)
      dsStag 4 3 ⟨["time", "lat_v", "lon_u"], [], .a3 fun _ _ _ => 1⟩ rfl rfl).2.1 (by decide),
   (rank3_time_dispatch slW ["time", "lat", "lon"] (fun _ _ _ => 0) (fun _ _ _ => 5)
      dsStag 4 3 ⟨["time", "lat_v", "lon_u"], [], .a3 fun _ _ _ => 1⟩ rfl rfl).2.2⟩

/-- C6: a rank-2 variable is copied with the unwidened x and y slices on
both source and destination — the destination is exactly
`[ys, ye) × [xs, xe)` fed from `[yts, ...) × [xts, ...)` — for every
dimension tuple of length 2, including tuples that contain a staggering
marker; in particular the cells at `x = xe` and `y = ye` that a widened
copy would write are never written. -/
theorem rank2_copy_unwidened (sl : Slices) (dims : List String)
    (g t : Int → Int → Int) (h2 : dims.length = 2) :
    copy_data sl dims (.a2 g) (.a2 t) =
      .ok (.a2 (fun y x =>
        if writesXY sl 0 0 y x then t (srcY sl y) (srcX sl x) else g y x)) ∧
    (∀ y : Int, writesXY sl 0 0 y sl.xe = false) ∧
    (∀ x : Int, writesXY sl 0 0 sl.ye x = false) := by
  refine ⟨?_, fun y => ?_, fun x => ?_⟩
  · unfold copy_data
    rw [if_pos h2]
  · simp only [writesXY, decide_eq_false_iff_not]
    omega
  · simp only [writesXY, decide_eq_false_iff_not]
    omega

/-- Witness for `rank2_copy_unwidened` on a doubly staggered dimension
tuple `["lat_v", "lon_u"]`. -/
theorem rank2_copy_unwidened_witness :
    copy_data slW ["lat_v", "lon_u"] (.a2 fun _ _ => 0) (.a2 fun _ _ => 7) =
      .ok (.a2 (fun y x =>
        if writesXY slW 0 0 y x then
          (fun _ _ => (7 : Int)) (srcY slW y) (srcX slW x)
        else (fun _ _ => (0 : Int)) y x)) ∧
    (∀ y : Int, writesXY slW 0 0 y slW.xe = false) ∧
    (∀ x : Int, writesXY slW 0 0 slW.ye x = false) :=
  rank2_copy_unwidened slW ["lat_v", "lon_u"] (fun _ _ => 0) (fun _ _ => 7) rfl

/-- C4 (code bug): the template sizes the leading axis of a rank-3
variable and the second axis of a rank-4 variable from the reference
tile's own dimension sizes (`d.dims[dims[0]]`, `d.dims[dims[1]]`), not
from the domain vertical extent: on `dsVert`, whose `level` dimension has
size 5 while `kde - kds + 1 = 3`, the vertical axes come out as 5, not 3
(the `nz = kde - kds + 1` computed in the source is never used — it is
shadowed in the rank-4 branch). -/
theorem set_up_dataset_vertical_size_from_tile :
    templateShape dsVert "qv" = some [5, 3, 4] ∧
    templateShape dsVert "w" = some [2, 5, 3, 4] ∧
    attrInt dsVert.attrs "kde" - attrInt dsVert.attrs "kds" + 1 = 3 ∧
    (5 : Int) ≠ 3 := by
  refine ⟨by decide, by decide, by decide, by decide⟩

/-- `sameExceptDomain` is reflexive. -/
theorem sameExceptDomain_refl (d : Dataset) : sameExceptDomain d d :=
  ⟨rfl, rfl, fun _ _ => rfl⟩

/-- Reading one attribute only depends on its lookup result. -/
theorem readIntAttr_congr (a1 a2 : Attrs) (k : String)
    (h : a1.lookup k = a2.lookup k) : readIntAttr a1 k = readIntAttr a2 k := by
  unfold readIntAttr
  rw [h]

/-- Mapping `readIntAttr` over keys only depends on their lookups. -/
theorem mapM_readIntAttr_congr (a1 a2 : Attrs) (ks : List String)
    (h : ∀ k ∈ ks, a1.lookup k = a2.lookup k) :
    ks.mapM (readIntAttr a1) = ks.mapM (readIntAttr a2) := by
  induction ks with
  | nil => rfl
  | cons k0 rest ih =>
    rw [List.mapM_cons, List.mapM_cons,
      readIntAttr_congr a1 a2 k0 (h k0 (List.mem_cons_self _ _))]
    simp only [ih (fun k hk => h k (List.mem_cons_of_mem _ hk))]

/-- `get_dims` on a non-domain section is unchanged when only domain
attributes differ. -/
theorem get_dims_congr (d1 d2 : Dataset) (sec : String)
    (hkeys : ∀ k ∈ extent_keys sec, k ∉ extent_keys "d")
    (hattrs : ∀ k, k ∉ extent_keys "d" → d1.attrs.lookup k = d2.attrs.lookup k) :
    get_dims d1 sec = get_dims d2 sec := by
  unfold get_dims
  exact mapM_readIntAttr_congr _ _ _ (fun k hk => hattrs k (hkeys k hk))

/-- Processing one tile only reads its memory and tile extents and its
variables, so it is unchanged when only the tile's domain attributes
differ. -/
theorem agg_tile_congr (ids jds kds : Int) (g : GlobalDataset) (d1 d2 : Dataset)
    (h : sameExceptDomain d1 d2) :
    agg_tile ids jds kds g d1 = agg_tile ids jds kds g d2 := by
  obtain ⟨hvars, _, hattrs⟩ := h
  unfold agg_tile
  rw [get_dims_congr d1 d2 "m" (by decide) hattrs,
    get_dims_congr d1 d2 "t" (by decide) hattrs]
  simp only [hvars]

/-- The tile loop is unchanged when only the domain attributes of the
processed tiles differ. -/
theorem aggLoop_congr (ids jds kds : Int) (g : GlobalDataset)
    (l1 l2 : List Dataset) (h : List.Forall₂ sameExceptDomain l1 l2) :
    aggLoop ids jds kds g l1 = aggLoop ids jds kds g l2 := by
  induction h generalizing g with
  | nil => rfl
  | @cons d1 d2 t1 t2 h1 _ ih =>
    unfold aggLoop
    rw [agg_tile_congr ids jds kds g d1 d2 h1]
    cases agg_tile ids jds kds g d2 with
    | error e => rfl
    | ok g2 => exact ih g2

/-- C10: the global placement of every tile comes from the first (sorted)
dataset's domain attributes only — changing the domain-section extent
attributes of any tile other than the first never changes the aggregated
output, so mutually inconsistent domain extents across a group go
undetected. -/
theorem agg_core_first_domain_only (first : Dataset) (t1 t2 : List Dataset)
    (h : List.Forall₂ sameExceptDomain t1 t2) :
    agg_core (first :: t1) = agg_core (first :: t2) := by
  unfold agg_core
  simp only [show ∀ (ids jds kds : Int) (g : GlobalDataset),
      aggLoop ids jds kds g (first :: t1) = aggLoop ids jds kds g (first :: t2) from
    fun ids jds kds g =>
      aggLoop_congr ids jds kds g _ _
        (List.Forall₂.cons (sameExceptDomain_refl first) h)]

/-- Witness for `agg_core_first_domain_only`: corrupting `ids` of the
second tile of a concrete 2-tile group leaves the aggregated result
unchanged. -/
theorem agg_core_first_domain_only_witness :
    agg_core [tileA, tileB] = agg_core [tileA, tileBBadDomain] :=
  agg_core_first_domain_only tileA [tileB] [tileBBadDomain]
    (List.Forall₂.cons
      ⟨rfl, rfl, by
        intro k hk
        have hne : ((k : String) == "ids") = false :=
          beq_eq_false_iff_ne.mpr (fun he => hk (by rw [he]; decide))
        show (((("ids", AttrVal.intVal 1) :: tileBAttrsTail).lookup k : Option AttrVal)) =
          ((("ids", AttrVal.intVal 77) :: tileBAttrsTail).lookup k)
        simp only [tileBAttrsTail, List.lookup, hne]⟩
      List.Forall₂.nil)

/-- Reading attributes can only fail with `MissingMetadataError`. -/
theorem mapM_no_incomplete (a : Attrs) (ks : List String) :
    ks.mapM (readIntAttr a) ≠ .error .TileGroupIncompleteError := by
  induction ks with
  | nil =>
    intro h
    rw [List.mapM_nil] at h
    exact absurd h (by simp [pure, Except.pure])
  | cons k rest ih =>
    intro h
    rw [List.mapM_cons] at h
    cases hr : readIntAttr a k with
    | error e =>
      rw [hr, error_bind] at h
      injection h with h2
      subst h2
      unfold readIntAttr at hr
      split at hr <;> simp_all
    | ok n =>
      rw [hr, ok_bind] at h
      cases hm : rest.mapM (readIntAttr a) with
      | error e =>
        rw [hm, error_bind] at h
        injection h with h2
        subst h2
        exact ih hm
      | ok l =>
        rw [hm, ok_bind] at h
        exact absurd h (by simp [pure, Except.pure])

/-- `get_dims` can only fail with `MissingMetadataError`. -/
theorem get_dims_no_incomplete (d : Dataset) (sec : String) :
    get_dims d sec ≠ .error .TileGroupIncompleteError :=
  mapM_no_incomplete d.attrs (extent_keys sec)

/-- `allocVar` can only fail with `UnsupportedRankError`. -/
theorem allocVar_no_incomplete (d : Dataset) (nx ny : Int) (v : TVar) :
    allocVar d nx ny v ≠ .error .TileGroupIncompleteError := by
  intro h
  unfold allocVar at h
  split at h
  · simp_all
  · split at h
    · simp_all
    · split at h <;> simp_all

/-- The template loop never fails with `TileGroupIncompleteError`. -/
theorem setupVars_no_incomplete (d : Dataset) (nx ny : Int)
    (vs : List (String × TVar)) :
    setupVars d nx ny vs ≠ .error .TileGroupIncompleteError := by
  induction vs with
  | nil => simp [setupVars]
  | cons q rest ih =>
    obtain ⟨n, v⟩ := q
    intro h
    unfold setupVars at h
    split at h
    · rename_i e heq
      injection h with h2
      subst h2
      exact allocVar_no_incomplete d nx ny v heq
    · split at h
      · rename_i e heq
        injection h with h2
        subst h2
        exact ih heq
      · exact absurd h (by simp)

/-- `set_up_dataset` never fails with `TileGroupIncompleteError`. -/
theorem set_up_dataset_no_incomplete (d : Dataset) :
    set_up_dataset d ≠ .error .TileGroupIncompleteError := by
  intro h
  unfold set_up_dataset at h
  split at h
  · split at h
    · rename_i e heq
      injection h with h2
      subst h2
      exact setupVars_no_incomplete _ _ _ _ heq
    · exact absurd h (by simp)
  · simp_all
  · rename_i e heq
    injection h with h2
    subst h2
    exact get_dims_no_incomplete d "d" heq

/-- The per-variable copy can only fail with `RankMismatchError`. -/
theorem copy_data_no_incomplete (sl : Slices) (dims : List String)
    (gdata tdata : NpArray) :
    copy_data sl dims gdata tdata ≠ .error .TileGroupIncompleteError := by
  intro h
  unfold copy_data at h
  split at h
  · split at h <;> simp_all
  · split at h
    · split at h
      · split at h <;> simp_all
      · split at h <;> simp_all
    · split at h
      · split at h <;> simp_all
      · simp_all

/-- The copy of one variable never fails with `TileGroupIncompleteError`. -/
theorem copy_one_no_incomplete (sl : Slices) (g : GlobalDataset)
    (n : String) (tv : TVar) :
    copy_one sl g n tv ≠ .error .TileGroupIncompleteError := by
  intro h
  unfold copy_one at h
  split at h
  · split at h
    · simp_all
    · split at h
      · rename_i e heq
        injection h with h2
        subst h2
        exact copy_data_no_incomplete _ _ _ _ heq
      · exact absurd h (by simp)
  · exact absurd h (by simp)

/-- The per-tile variable loop never fails with
`TileGroupIncompleteError`. -/
theorem copyVars_no_incomplete (sl : Slices) (g : GlobalDataset)
    (vs : List (String × TVar)) :
    copyVars sl g vs ≠ .error .TileGroupIncompleteError := by
  induction vs generalizing g with
  | nil => simp [copyVars]
  | cons q rest ih =>
    obtain ⟨n, tv⟩ := q
    intro h
    unfold copyVars at h
    split at h
    · rename_i e heq
      injection h with h2
      subst h2
      exact copy_one_no_incomplete _ _ _ _ heq
    · exact ih _ h

/-- Processing one tile never fails with `TileGroupIncompleteError`. -/
theorem agg_tile_no_incomplete (ids jds kds : Int) (g : GlobalDataset)
    (d : Dataset) :
    agg_tile ids jds kds g d ≠ .error .TileGroupIncompleteError := by
  intro h
  unfold agg_tile at h
  split at h
  · split at h
    · exact copyVars_no_incomplete _ _ _ h
    · simp_all
    · rename_i e heq
      injection h with h2
      subst h2
      exact get_dims_no_incomplete d "t" heq
  · simp_all
  · rename_i e heq
    injection h with h2
    subst h2
    exact get_dims_no_incomplete d "m" heq

/-- The tile loop never fails with `TileGroupIncompleteError`. -/
theorem aggLoop_no_incomplete (ids jds kds : Int) (g : GlobalDataset)
    (l : List Dataset) :
    aggLoop ids jds kds g l ≠ .error .TileGroupIncompleteError := by
  induction l generalizing g with
  | nil => simp [aggLoop]
  | cons d rest ih =>
    intro h
    unfold aggLoop at h
    split at h
    · rename_i e heq
      injection h with h2
      subst h2
      exact agg_tile_no_incomplete _ _ _ _ _ heq
    · exact ih _ h

/-- The aggregation core never fails with `TileGroupIncompleteError`. -/
theorem agg_core_no_incomplete (l : List Dataset) :
    agg_core l ≠ .error .TileGroupIncompleteError := by
  intro h
  cases l with
  | nil => simp [agg_core] at h
  | cons first rest =>
    simp only [agg_core] at h
    split at h
    · rename_i e heq
      injection h with h2
      subst h2
      exact set_up_dataset_no_incomplete first heq
    · split at h
      · exact aggLoop_no_incomplete _ _ _ _ _ h
      · simp_all
      · rename_i e heq
        injection h with h2
        subst h2
        exact get_dims_no_incomplete first "d" heq

/-- The whole `agg_file` pipeline never produces
`TileGroupIncompleteError`. -/
theorem agg_file_no_incomplete_aux (fs : List (String × Dataset))
    (first_file : String) :
    agg_file fs first_file ≠ .error .TileGroupIncompleteError := by
  intro h
  simp only [agg_file] at h
  split at h
  · rename_i e heq
    injection h with h2
    subst h2
    exact agg_core_no_incomplete _ heq
  · exact absurd h (by simp)

/-- C5 (amended): `agg_file` never raises `TileGroupIncompleteError` — the
script defines no group-completeness check at all, for any filesystem and
any first file. -/
theorem agg_file_never_incomplete (fs : List (String × Dataset))
    (first_file : String) :
    notIncomplete (agg_file fs first_file) = true := by
  unfold notIncomplete
  split
  · rename_i heq
    exact absurd heq (agg_file_no_incomplete_aux fs first_file)
  · rfl

/-- C5 (counterexample): on a group whose second tile file is missing —
`tileA`'s tile extent `i ∈ [1,1]` does not cover the domain `i ∈ [1,2]` —
`agg_file` does not raise; it produces an output whose cell at global
`(y, x) = (0, 1)` (owned by the missing tile) still holds the zero fill,
while the covered cell `(0, 0)` holds `tileA`'s value 100. -/
theorem agg_file_missing_tile_counterexample :
    isOkE (agg_file fsMissing "icar_out_001_d1") = true ∧
    outCell2 (agg_file fsMissing "icar_out_001_d1") "p" 0 1 = some 0 ∧
    outCell2 (agg_file fsMissing "icar_out_001_d1") "p" 0 0 = some 100 ∧
    get_dims tileA "d" = .ok [1, 2, 1, 2, 1, 1] ∧
    get_dims tileA "t" = .ok [1, 1, 1, 2, 1, 1] := by
  refine ⟨by rfl, by rfl, by rfl, by rfl, by rfl⟩

/-- The rank-2 copy, written out. -/
theorem copy_data_eq2 (sl : Slices) (dims : List String) (g t : Int → Int → Int)
    (h2 : dims.length = 2) :
    copy_data sl dims (.a2 g) (.a2 t) =
      .ok (.a2 (fun y x =>
        if writesXY sl 0 0 y x then t (srcY sl y) (srcX sl x) else g y x)) := by
  unfold copy_data
  rw [if_pos h2]

/-- The rank-3 time-leading copy, written out. -/
theorem copy_data_eq3t (sl : Slices) (dims : List String) (g t : Int → Int → Int → Int)
    (h3 : dims.length = 3) (ht : dims.getD 0 "" = "time") :
    copy_data sl dims (.a3 g) (.a3 t) =
      .ok (.a3 (fun a y x =>
        if writesXY sl (get_dim_offset dims).1 (get_dim_offset dims).2 y x then
          t a (srcY sl y) (srcX sl x)
        else g a y x)) := by
  unfold copy_data
  rw [if_neg (by omega), if_pos h3, if_pos ht]

/-- The rank-3 vertical-leading copy, written out. -/
theorem copy_data_eq3z (sl : Slices) (dims : List String) (g t : Int → Int → Int → Int)
    (h3 : dims.length = 3) (ht : dims.getD 0 "" ≠ "time") :
    copy_data sl dims (.a3 g) (.a3 t) =
      .ok (.a3 (fun z y x =>
        if writesZ sl z && writesXY sl (get_dim_offset dims).1 (get_dim_offset dims).2 y x then
          t (srcZ sl z) (srcY sl y) (srcX sl x)
        else g z y x)) := by
  unfold copy_data
  rw [if_neg (by omega), if_pos h3, if_neg ht]

/-- The rank-4 copy, written out. -/
theorem copy_data_eq4 (sl : Slices) (dims : List String)
    (g t : Int → Int → Int → Int → Int) (h4 : dims.length = 4) :
    copy_data sl dims (.a4 g) (.a4 t) =
      .ok (.a4 (fun tt z y x =>
        if writesZ sl z && writesXY sl (get_dim_offset dims).1 (get_dim_offset dims).2 y x then
          t tt (srcZ sl z) (srcY sl y) (srcX sl x)
        else g tt z y x)) := by
  unfold copy_data
  rw [if_neg (by omega), if_neg (by omega), if_pos h4]

/-- With matching constructors, the copy succeeds and its value is
`copy_data_fn`. -/
theorem copy_data_fn_ok (sl : Slices) (dims : List String) (gdata tdata : NpArray)
    (hg : ctorOK gdata dims.length) (ht : ctorOK tdata dims.length) :
    copy_data sl dims gdata tdata = .ok (copy_data_fn sl dims gdata tdata) := by
  unfold ctorOK at hg ht
  cases gdata with
  | a2 g =>
    cases tdata with
    | a2 t =>
      have h := copy_data_eq2 sl dims g t hg
      rw [copy_data_fn, h]
    | a3 t => omega
    | a4 t => omega
    | aOther r t => exact ht.elim
  | a3 g =>
    cases tdata with
    | a2 t => omega
    | a3 t =>
      by_cases hd : dims.getD 0 "" = "time"
      · have h := copy_data_eq3t sl dims g t hg hd
        rw [copy_data_fn, h]
      · have h := copy_data_eq3z sl dims g t hg hd
        rw [copy_data_fn, h]
    | a4 t => omega
    | aOther r t => exact ht.elim
  | a4 g =>
    cases tdata with
    | a2 t => omega
    | a3 t => omega
    | a4 t =>
      have h := copy_data_eq4 sl dims g t hg
      rw [copy_data_fn, h]
    | aOther r t => exact ht.elim
  | aOther r g => exact hg.elim

/-- A successful copy keeps the array constructor of the global array. -/
theorem copy_data_ok_ctor (sl : Slices) (dims : List String)
    (gdata tdata r : NpArray) (hc : copy_data sl dims gdata tdata = .ok r)
    (len : Nat) (h : ctorOK gdata len) : ctorOK r len := by
  unfold copy_data at hc
  split at hc
  · split at hc
    · injection hc with h2; subst h2; exact h
    · exact absurd hc (by simp)
  · split at hc
    · split at hc
      · split at hc
        · injection hc with h2; subst h2; exact h
        · exact absurd hc (by simp)
      · split at hc
        · injection hc with h2; subst h2; exact h
        · exact absurd hc (by simp)
    · split at hc
      · split at hc
        · injection hc with h2; subst h2; exact h
        · exact absurd hc (by simp)
      · injection hc with h2; subst h2; exact h

/-- `copy_data_fn` keeps the array constructor of the global array. -/
theorem ctorOK_copy_data_fn (sl : Slices) (dims : List String)
    (gdata tdata : NpArray) (len : Nat) (h : ctorOK gdata len) :
    ctorOK (copy_data_fn sl dims gdata tdata) len := by
  unfold copy_data_fn
  cases hc : copy_data sl dims gdata tdata with
  | error e => exact h
  | ok r => exact copy_data_ok_ctor sl dims gdata tdata r hc len h

/-- Looking up the updated variable yields the new value (when the
variable exists). -/
theorem lookup_updateVar_self (vs : List (String × GVar)) (m : String)
    (gv gv' : GVar) (h : vs.lookup m = some gv) :
    (updateVar vs m gv').lookup m = some gv' := by
  induction vs with
  | nil => simp [List.lookup] at h
  | cons q rest ih =>
    obtain ⟨k, w⟩ := q
    unfold updateVar
    rw [List.map_cons]
    by_cases hk : k = m
    · subst hk
      rw [show (if (k, w).1 = k then (k, gv') else (k, w)) = (k, gv') from if_pos rfl]
      simp [List.lookup]
    · rw [if_neg hk]
      have hmk : (m == k) = false := beq_eq_false_iff_ne.mpr (fun he => hk he.symm)
      rw [List.lookup] at h ⊢
      rw [hmk] at h ⊢
      exact ih h

/-- Looking up a different variable is unchanged by the update. -/
theorem lookup_updateVar_other (vs : List (String × GVar)) (m m' : String)
    (gv' : GVar) (h : m ≠ m') :
    (updateVar vs m' gv').lookup m = vs.lookup m := by
  induction vs with
  | nil => rfl
  | cons q rest ih =>
    obtain ⟨k, w⟩ := q
    unfold updateVar
    rw [List.map_cons]
    by_cases hk : k = m'
    · subst hk
      have hmk : (m == k) = false := beq_eq_false_iff_ne.mpr h
      rw [if_pos rfl]
      rw [List.lookup, List.lookup, hmk]
      exact ih
    · rw [if_neg hk]
      rw [List.lookup, List.lookup]
      cases hmk : (m == k) with
      | true => rfl
      | false => exact ih

/-- A successful per-variable copy step, written out. -/
theorem copy_one_ok (sl : Slices) (g : GlobalDataset) (n : String) (tv : TVar)
    (gv : GVar) (hlk : g.vars.lookup n = some gv)
    (hlen : 2 ≤ tv.dims.length ∧ tv.dims.length ≤ 4)
    (hg : ctorOK gv.data tv.dims.length) (ht : ctorOK tv.data tv.dims.length) :
    copy_one sl g n tv = .ok ⟨g.attrs, updateVar g.vars n
      { gv with data := copy_data_fn sl tv.dims gv.data tv.data }⟩ := by
  unfold copy_one
  rw [if_pos (show tv.dims.length = 2 ∨ tv.dims.length = 3 ∨ tv.dims.length = 4 by omega)]
  rw [hlk]
  simp only [copy_data_fn_ok sl tv.dims gv.data tv.data hg ht]

/-- A constructor-consistent rank is between 2 and 4. -/
theorem ctorOK_len (data : NpArray) (len : Nat) (h : ctorOK data len) :
    2 ≤ len ∧ len ≤ 4 := by
  unfold ctorOK at h
  cases data <;> first | omega | exact h.elim

/-- The per-tile variable loop succeeds on consistent variables and
applies `copy_data_fn` to each one, leaving the rest alone. -/
theorem copyVars_ok (sl : Slices) (g : GlobalDataset) (vs : List (String × TVar))
    (hnd : (vs.map Prod.fst).Nodup)
    (hpres : ∀ p ∈ vs, ∃ gv, g.vars.lookup p.1 = some gv ∧ gv.dims = p.2.dims ∧
      ctorOK gv.data p.2.dims.length ∧ ctorOK p.2.data p.2.dims.length) :
    ∃ g', copyVars sl g vs = .ok g' ∧ g'.attrs = g.attrs ∧
      (∀ m tv, (m, tv) ∈ vs → ∀ gv, g.vars.lookup m = some gv →
        ∃ gv', g'.vars.lookup m = some gv' ∧ gv'.dims = gv.dims ∧ gv'.attrs = gv.attrs ∧
          gv'.shape = gv.shape ∧ gv'.data = copy_data_fn sl tv.dims gv.data tv.data) ∧
      (∀ m, m ∉ vs.map Prod.fst → g'.vars.lookup m = g.vars.lookup m) := by
  revert hnd hpres
  induction vs generalizing g with
  | nil =>
    intro hnd hpres
    exact ⟨g, rfl, rfl, fun m tv hm => absurd hm (by simp), fun m _ => rfl⟩
  | cons q rest ih =>
    intro hnd hpres
    obtain ⟨m0, tv0⟩ := q
    obtain ⟨gv0, hgv0, hdims0, hcg0, hct0⟩ := hpres (m0, tv0) (List.mem_cons_self _ _)
    have hlen0 := ctorOK_len _ _ hct0
    have hco := copy_one_ok sl g m0 tv0 gv0 hgv0 hlen0 hcg0 hct0
    rw [List.map_cons] at hnd
    have hm0rest : m0 ∉ rest.map Prod.fst := (List.nodup_cons.mp hnd).1
    have hndrest : (rest.map Prod.fst).Nodup := (List.nodup_cons.mp hnd).2
    have hlookm0 : (updateVar g.vars m0
        { gv0 with data := copy_data_fn sl tv0.dims gv0.data tv0.data }).lookup m0 =
        some { gv0 with data := copy_data_fn sl tv0.dims gv0.data tv0.data } :=
      lookup_updateVar_self _ m0 gv0 _ hgv0
    have hlook2 : ∀ m, m ≠ m0 → (updateVar g.vars m0
        { gv0 with data := copy_data_fn sl tv0.dims gv0.data tv0.data }).lookup m =
        g.vars.lookup m :=
      fun m hm => lookup_updateVar_other _ m m0 _ hm
    have hpres2 : ∀ p ∈ rest, ∃ gv,
        (updateVar g.vars m0
          { gv0 with data := copy_data_fn sl tv0.dims gv0.data tv0.data }).lookup p.1 =
          some gv ∧ gv.dims = p.2.dims ∧
        ctorOK gv.data p.2.dims.length ∧ ctorOK p.2.data p.2.dims.length := by
      intro p hp
      obtain ⟨gv, hgv, h1, h2, h3⟩ := hpres p (List.mem_cons_of_mem _ hp)
      have hne : p.1 ≠ m0 := fun he =>
        hm0rest (he ▸ List.mem_map_of_mem Prod.fst hp)
      exact ⟨gv, (hlook2 p.1 hne).trans hgv, h1, h2, h3⟩
    obtain ⟨g', hg', hattrs', hmain', hother'⟩ :=
      ih ⟨g.attrs, updateVar g.vars m0
        { gv0 with data := copy_data_fn sl tv0.dims gv0.data tv0.data }⟩ hndrest hpres2
    refine ⟨g', ?_, hattrs', ?_, ?_⟩
    · unfold copyVars
      rw [hco]
      exact hg'
    · intro m tv hmem gv hgv
      rcases List.mem_cons.mp hmem with heq | hmemr
      · injection heq with h1 h2
        subst h1
        subst h2
        have hgveq : gv = gv0 := by
          rw [hgv] at hgv0
          exact Option.some.inj hgv0
        subst hgveq
        exact ⟨{ gv with data := copy_data_fn sl tv.dims gv.data tv.data },
          (hother' m hm0rest).trans hlookm0, rfl, rfl, rfl, rfl⟩
      · have hne : m ≠ m0 := fun he =>
          hm0rest (he ▸ List.mem_map_of_mem Prod.fst hmemr)
        exact hmain' m tv hmemr gv ((hlook2 m hne).trans hgv)
    · intro m hm
      have hm1 : m ∉ rest.map Prod.fst := fun hc => hm (by simp [hc])
      have hm2 : m ≠ m0 := fun he => hm (by simp [he])
      exact (hother' m hm1).trans (hlook2 m hm2)

/-- Processing one consistent tile succeeds and applies `copy_data_fn`
with the tile's slices to every variable. -/
theorem agg_tile_ok (ids jds kds : Int) (g : GlobalDataset) (d : Dataset) (e : TileExt)
    (sig0 : List (String × List String))
    (hext : extMatches d e)
    (hsig : varSig d = sig0)
    (hndsig : (sig0.map Prod.fst).Nodup)
    (hranks : ∀ p ∈ d.vars, wellRanked p.2)
    (hG : templateOK sig0 g) :
    ∃ g', agg_tile ids jds kds g d = .ok g' ∧ g'.attrs = g.attrs ∧
      (∀ m tv, (m, tv) ∈ d.vars → ∀ gv, g.vars.lookup m = some gv →
        ∃ gv', g'.vars.lookup m = some gv' ∧ gv'.dims = gv.dims ∧ gv'.attrs = gv.attrs ∧
          gv'.shape = gv.shape ∧
          gv'.data = copy_data_fn (slicesOf ids jds kds e) tv.dims gv.data tv.data) ∧
      (∀ m, m ∉ d.vars.map Prod.fst → g'.vars.lookup m = g.vars.lookup m) := by
  have hnd : (d.vars.map Prod.fst).Nodup := by
    have : (varSig d).map Prod.fst = d.vars.map Prod.fst := by
      simp [varSig, List.map_map]
    rw [← this, hsig]
    exact hndsig
  have hpres : ∀ p ∈ d.vars, ∃ gv, g.vars.lookup p.1 = some gv ∧ gv.dims = p.2.dims ∧
      ctorOK gv.data p.2.dims.length ∧ ctorOK p.2.data p.2.dims.length := by
    intro p hp
    have hsigmem : (p.1, p.2.dims) ∈ sig0 := by
      rw [← hsig]
      exact List.mem_map_of_mem (fun q => (q.1, q.2.dims)) hp
    obtain ⟨gv, hgv, hdims, hctor⟩ := hG (p.1, p.2.dims) hsigmem
    exact ⟨gv, hgv, hdims, hctor, hranks p hp⟩
  obtain ⟨g', hg', hattrs, hmain, hother⟩ :=
    copyVars_ok (slicesOf ids jds kds e) g d.vars hnd hpres
  refine ⟨g', ?_, hattrs, hmain, hother⟩
  simp only [agg_tile, hext.1, hext.2]
  unfold slicesOf at hg'
  exact hg'

/-- Disjoint tiles never write the same horizontal cell. -/
theorem not_writesRect_of_disjoint (ids jds : Int) (q2 e : TileExt) (y x : Int)
    (h1 : writesRect ids jds q2 y x) (hd : rectDisjoint q2 e) :
    ¬ writesRect ids jds e y x := by
  unfold writesRect at h1 ⊢
  unfold rectDisjoint at hd
  omega

/-- For an unstaggered variable the written rectangle is exactly the tile
rectangle. -/
theorem writesXY_unstag (ids jds kds : Int) (e : TileExt) (y x : Int) :
    writesXY (slicesOf ids jds kds e) 0 0 y x = true ↔ writesRect ids jds e y x := by
  simp only [writesXY, slicesOf, agg_slices, decide_eq_true_eq, writesRect]
  omega

/-- For a full-vertical tile the written z range is the domain's. -/
theorem writesZ_vert (ids jds kds kde : Int) (e : TileExt)
    (hk1 : e.kts = kds) (hk2 : e.kte = kde) (z : Int) :
    writesZ (slicesOf ids jds kds e) z = true ↔ (0 ≤ z ∧ z ≤ kde - kds) := by
  simp only [writesZ, slicesOf, agg_slices, decide_eq_true_eq]
  omega

/-- The source x index is the interior mapping. -/
theorem srcX_eq (ids jds kds : Int) (e : TileExt) (x : Int) :
    srcX (slicesOf ids jds kds e) x = x + (ids - e.ims) := by
  simp only [srcX, slicesOf, agg_slices]
  ring

/-- The source y index is the interior mapping. -/
theorem srcY_eq (ids jds kds : Int) (e : TileExt) (y : Int) :
    srcY (slicesOf ids jds kds e) y = y + (jds - e.jms) := by
  simp only [srcY, slicesOf, agg_slices]
  ring

/-- The source z index is the interior mapping. -/
theorem srcZ_eq (ids jds kds : Int) (e : TileExt) (z : Int) :
    srcZ (slicesOf ids jds kds e) z = z + (kds - e.kms) := by
  simp only [srcZ, slicesOf, agg_slices]
  ring

/-- Copying one more tile into a variable's array preserves the variable
state: the new tile's rectangle takes its interior values, everything else
is untouched. -/
theorem varState_step
    (ids jds kds kde : Int) (n : String) (tvDims : List String)
    (hxm : "lon_u" ∉ tvDims) (hym : "lat_v" ∉ tvDims)
    (proc : List (Dataset × TileExt)) (d : Dataset) (e : TileExt)
    (tvd : TVar) (hlook : d.vars.lookup n = some tvd) (htvdims : tvd.dims = tvDims)
    (hct : ctorOK tvd.data tvd.dims.length)
    (data : NpArray) (hcg : ctorOK data tvd.dims.length)
    (hk1 : e.kts = kds) (hk2 : e.kte = kde)
    (hdisjold : ∀ q ∈ proc, rectDisjoint q.2 e)
    (hstate : varState ids jds kds kde n tvDims proc data) :
    varState ids jds kds kde n tvDims (proc ++ [(d, e)])
      (copy_data_fn (slicesOf ids jds kds e) tvd.dims data tvd.data) := by
  have hoff : get_dim_offset tvd.dims = (0, 0) := by
    rw [htvdims]
    unfold get_dim_offset
    rw [if_neg hxm, if_neg hym]
  obtain ⟨tdims, tattrs, tdata⟩ := tvd
  subst htvdims
  cases data with
  | aOther r f => exact hcg.elim
  | a2 f =>
    have h2 : tdims.length = 2 := hcg
    cases tdata with
    | aOther r t => exact hct.elim
    | a3 t => have h3 : tdims.length = 3 := hct; omega
    | a4 t => have h4 : tdims.length = 4 := hct; omega
    | a2 t =>
      have hfn : copy_data_fn (slicesOf ids jds kds e) tdims (.a2 f) (.a2 t) =
          .a2 (fun y x =>
            if writesXY (slicesOf ids jds kds e) 0 0 y x then
              t (srcY (slicesOf ids jds kds e) y) (srcX (slicesOf ids jds kds e) x)
            else f y x) := by
        unfold copy_data_fn
        rw [copy_data_eq2 _ tdims f t h2]
      rw [hfn]
      intro y x
      constructor
      · intro hnone
        have hold : zeroAt (.a2 f) y x :=
          (hstate y x).1 (fun q hq => hnone q (List.mem_append_left _ hq))
        have hnew : ¬ writesRect ids jds e y x :=
          hnone (d, e) (List.mem_append_right _ (List.mem_singleton.mpr rfl))
        have hfalse : writesXY (slicesOf ids jds kds e) 0 0 y x = false := by
          rw [← Bool.not_eq_true]
          intro htrue
          exact hnew ((writesXY_unstag ids jds kds e y x).mp htrue)
        simp only [zeroAt] at hold ⊢
        rw [hfalse]
        simpa using hold
      · intro q hq hw
        rcases List.mem_append.mp hq with hqp | hqe
        · obtain ⟨tvq, hlkq, hag⟩ := (hstate y x).2 q hqp hw
          refine ⟨tvq, hlkq, ?_⟩
          have hnew : ¬ writesRect ids jds e y x :=
            not_writesRect_of_disjoint ids jds q.2 e y x hw (hdisjold q hqp)
          have hfalse : writesXY (slicesOf ids jds kds e) 0 0 y x = false := by
            rw [← Bool.not_eq_true]
            intro htrue
            exact hnew ((writesXY_unstag ids jds kds e y x).mp htrue)
          cases htq : tvq.data with
          | a2 tq =>
            rw [htq] at hag
            simp only [dataAgrees] at hag ⊢
            rw [hfalse]
            simpa using hag
          | a3 tq => rw [htq] at hag; exact hag.elim
          | a4 tq => rw [htq] at hag; exact hag.elim
          | aOther r tq => rw [htq] at hag; exact hag.elim
        · have hqde : q = (d, e) := List.mem_singleton.mp hqe
          subst hqde
          refine ⟨⟨tdims, tattrs, .a2 t⟩, hlook, ?_⟩
          simp only [dataAgrees]
          have htrue : writesXY (slicesOf ids jds kds e) 0 0 y x = true :=
            (writesXY_unstag ids jds kds e y x).mpr hw
          rw [htrue]
          simp only [if_true]
          rw [srcY_eq, srcX_eq]
  | a3 f =>
    have h3 : tdims.length = 3 := hcg
    cases tdata with
    | aOther r t => exact hct.elim
    | a2 t => have hb : tdims.length = 2 := hct; omega
    | a4 t => have hb : tdims.length = 4 := hct; omega
    | a3 t =>
      by_cases hd0 : tdims.getD 0 "" = "time"
      · have hfn : copy_data_fn (slicesOf ids jds kds e) tdims (.a3 f) (.a3 t) =
            .a3 (fun a y x =>
              if writesXY (slicesOf ids jds kds e) 0 0 y x then
                t a (srcY (slicesOf ids jds kds e) y) (srcX (slicesOf ids jds kds e) x)
              else f a y x) := by
          unfold copy_data_fn
          rw [copy_data_eq3t _ tdims f t h3 hd0, hoff]
        rw [hfn]
        intro y x
        constructor
        · intro hnone
          have hold : zeroAt (.a3 f) y x :=
            (hstate y x).1 (fun q hq => hnone q (List.mem_append_left _ hq))
          have hnew : ¬ writesRect ids jds e y x :=
            hnone (d, e) (List.mem_append_right _ (List.mem_singleton.mpr rfl))
          have hfalse : writesXY (slicesOf ids jds kds e) 0 0 y x = false := by
            rw [← Bool.not_eq_true]
            intro htrue
            exact hnew ((writesXY_unstag ids jds kds e y x).mp htrue)
          simp only [zeroAt] at hold ⊢
          intro a
          rw [hfalse]
          simpa using hold a
        · intro q hq hw
          rcases List.mem_append.mp hq with hqp | hqe
          · obtain ⟨tvq, hlkq, hag⟩ := (hstate y x).2 q hqp hw
            refine ⟨tvq, hlkq, ?_⟩
            have hnew : ¬ writesRect ids jds e y x :=
              not_writesRect_of_disjoint ids jds q.2 e y x hw (hdisjold q hqp)
            have hfalse : writesXY (slicesOf ids jds kds e) 0 0 y x = false := by
              rw [← Bool.not_eq_true]
              intro htrue
              exact hnew ((writesXY_unstag ids jds kds e y x).mp htrue)
            cases htq : tvq.data with
            | a2 tq => rw [htq] at hag; exact hag.elim
            | a4 tq => rw [htq] at hag; exact hag.elim
            | aOther r tq => rw [htq] at hag; exact hag.elim
            | a3 tq =>
              rw [htq] at hag
              simp only [dataAgrees] at hag ⊢
              rw [if_pos hd0] at hag ⊢
              intro a
              rw [hfalse]
              simpa using hag a
          · have hqde : q = (d, e) := List.mem_singleton.mp hqe
            subst hqde
            refine ⟨⟨tdims, tattrs, .a3 t⟩, hlook, ?_⟩
            simp only [dataAgrees]
            rw [if_pos hd0]
            have htrue : writesXY (slicesOf ids jds kds e) 0 0 y x = true :=
              (writesXY_unstag ids jds kds e y x).mpr hw
            intro a
            rw [htrue]
            simp only [if_true]
            rw [srcY_eq, srcX_eq]
      · have hfn : copy_data_fn (slicesOf ids jds kds e) tdims (.a3 f) (.a3 t) =
            .a3 (fun z y x =>
              if writesZ (slicesOf ids jds kds e) z &&
                  writesXY (slicesOf ids jds kds e) 0 0 y x then
                t (srcZ (slicesOf ids jds kds e) z) (srcY (slicesOf ids jds kds e) y)
                  (srcX (slicesOf ids jds kds e) x)
              else f z y x) := by
          unfold copy_data_fn
          rw [copy_data_eq3z _ tdims f t h3 hd0, hoff]
        rw [hfn]
        intro y x
        constructor
        · intro hnone
          have hold : zeroAt (.a3 f) y x :=
            (hstate y x).1 (fun q hq => hnone q (List.mem_append_left _ hq))
          have hnew : ¬ writesRect ids jds e y x :=
            hnone (d, e) (List.mem_append_right _ (List.mem_singleton.mpr rfl))
          have hfalse : writesXY (slicesOf ids jds kds e) 0 0 y x = false := by
            rw [← Bool.not_eq_true]
            intro htrue
            exact hnew ((writesXY_unstag ids jds kds e y x).mp htrue)
          simp only [zeroAt] at hold ⊢
          intro a
          rw [hfalse]
          simpa using hold a
        · intro q hq hw
          rcases List.mem_append.mp hq with hqp | hqe
          · obtain ⟨tvq, hlkq, hag⟩ := (hstate y x).2 q hqp hw
            refine ⟨tvq, hlkq, ?_⟩
            have hnew : ¬ writesRect ids jds e y x :=
              not_writesRect_of_disjoint ids jds q.2 e y x hw (hdisjold q hqp)
            have hfalse : writesXY (slicesOf ids jds kds e) 0 0 y x = false := by
              rw [← Bool.not_eq_true]
              intro htrue
              exact hnew ((writesXY_unstag ids jds kds e y x).mp htrue)
            cases htq : tvq.data with
            | a2 tq => rw [htq] at hag; exact hag.elim
            | a4 tq => rw [htq] at hag; exact hag.elim
            | aOther r tq => rw [htq] at hag; exact hag.elim
            | a3 tq =>
              rw [htq] at hag
              simp only [dataAgrees] at hag ⊢
              rw [if_neg hd0] at hag ⊢
              intro z hz1 hz2
              rw [hfalse]
              simpa using hag z hz1 hz2
          · have hqde : q = (d, e) := List.mem_singleton.mp hqe
            subst hqde
            refine ⟨⟨tdims, tattrs, .a3 t⟩, hlook, ?_⟩
            simp only [dataAgrees]
            rw [if_neg hd0]
            have htrue : writesXY (slicesOf ids jds kds e) 0 0 y x = true :=
              (writesXY_unstag ids jds kds e y x).mpr hw
            intro z hz1 hz2
            have hztrue : writesZ (slicesOf ids jds kds e) z = true :=
              (writesZ_vert ids jds kds kde e hk1 hk2 z).mpr ⟨hz1, hz2⟩
            rw [htrue, hztrue]
            simp only [Bool.and_self, if_true]
            rw [srcY_eq, srcX_eq, srcZ_eq]
  | a4 f =>
    have h4 : tdims.length = 4 := hcg
    cases tdata with
    | aOther r t => exact hct.elim
    | a2 t => have hb : tdims.length = 2 := hct; omega
    | a3 t => have hb : tdims.length = 3 := hct; omega
    | a4 t =>
      have hfn : copy_data_fn (slicesOf ids jds kds e) tdims (.a4 f) (.a4 t) =
          .a4 (fun tt z y x =>
            if writesZ (slicesOf ids jds kds e) z &&
                writesXY (slicesOf ids jds kds e) 0 0 y x then
              t tt (srcZ (slicesOf ids jds kds e) z) (srcY (slicesOf ids jds kds e) y)
                (srcX (slicesOf ids jds kds e) x)
            else f tt z y x) := by
        unfold copy_data_fn
        rw [copy_data_eq4 _ tdims f t h4, hoff]
      rw [hfn]
      intro y x
      constructor
      · intro hnone
        have hold : zeroAt (.a4 f) y x :=
          (hstate y x).1 (fun q hq => hnone q (List.mem_append_left _ hq))
        have hnew : ¬ writesRect ids jds e y x :=
          hnone (d, e) (List.mem_append_right _ (List.mem_singleton.mpr rfl))
        have hfalse : writesXY (slicesOf ids jds kds e) 0 0 y x = false := by
          rw [← Bool.not_eq_true]
          intro htrue
          exact hnew ((writesXY_unstag ids jds kds e y x).mp htrue)
        simp only [zeroAt] at hold ⊢
        intro tt z
        rw [hfalse]
        simpa using hold tt z
      · intro q hq hw
        rcases List.mem_append.mp hq with hqp | hqe
        · obtain ⟨tvq, hlkq, hag⟩ := (hstate y x).2 q hqp hw
          refine ⟨tvq, hlkq, ?_⟩
          have hnew : ¬ writesRect ids jds e y x :=
            not_writesRect_of_disjoint ids jds q.2 e y x hw (hdisjold q hqp)
          have hfalse : writesXY (slicesOf ids jds kds e) 0 0 y x = false := by
            rw [← Bool.not_eq_true]
            intro htrue
            exact hnew ((writesXY_unstag ids jds kds e y x).mp htrue)
          cases htq : tvq.data with
          | a2 tq => rw [htq] at hag; exact hag.elim
          | a3 tq => rw [htq] at hag; exact hag.elim
          | aOther r tq => rw [htq] at hag; exact hag.elim
          | a4 tq =>
            rw [htq] at hag
            simp only [dataAgrees] at hag ⊢
            intro tt z hz1 hz2
            rw [hfalse]
            simpa using hag tt z hz1 hz2
        · have hqde : q = (d, e) := List.mem_singleton.mp hqe
          subst hqde
          refine ⟨⟨tdims, tattrs, .a4 t⟩, hlook, ?_⟩
          simp only [dataAgrees]
          have htrue : writesXY (slicesOf ids jds kds e) 0 0 y x = true :=
            (writesXY_unstag ids jds kds e y x).mpr hw
          intro tt z hz1 hz2
          have hztrue : writesZ (slicesOf ids jds kds e) z = true :=
            (writesZ_vert ids jds kds kde e hk1 hk2 z).mpr ⟨hz1, hz2⟩
          rw [htrue, hztrue]
          simp only [Bool.and_self, if_true]
          rw [srcY_eq, srcX_eq, srcZ_eq]

/-- With distinct keys, membership determines the lookup result. -/
theorem lookup_of_mem_nodup {β : Type} (vs : List (String × β)) (m : String) (b : β)
    (hnd : (vs.map Prod.fst).Nodup) (hm : (m, b) ∈ vs) : vs.lookup m = some b := by
  induction vs with
  | nil => simp at hm
  | cons q rest ih =>
    obtain ⟨k, w⟩ := q
    rw [List.map_cons] at hnd
    have hpair := List.nodup_cons.mp hnd
    rcases List.mem_cons.mp hm with heq | hmem
    · injection heq with e1 e2
      subst e1
      subst e2
      simp [List.lookup]
    · by_cases hk : m = k
      · subst hk
        exact absurd (List.mem_map_of_mem Prod.fst hmem) hpair.1
      · rw [List.lookup]
        rw [show (m == k) = false from beq_eq_false_iff_ne.mpr hk]
        exact ih hpair.2 hmem

/-- Copying a tile with the full variable signature into a well-formed
template leaves a well-formed template. -/
theorem templateOK_after (sig0 : List (String × List String)) (g g2 : GlobalDataset)
    (d : Dataset) (e : TileExt) (ids jds kds : Int)
    (hsigd : varSig d = sig0)
    (hmain : ∀ m tv, (m, tv) ∈ d.vars → ∀ gv, g.vars.lookup m = some gv →
      ∃ gv', g2.vars.lookup m = some gv' ∧ gv'.dims = gv.dims ∧ gv'.attrs = gv.attrs ∧
        gv'.shape = gv.shape ∧
        gv'.data = copy_data_fn (slicesOf ids jds kds e) tv.dims gv.data tv.data)
    (hG : templateOK sig0 g) : templateOK sig0 g2 := by
  intro q hq
  obtain ⟨gv, hgv, hdims, hctor⟩ := hG q hq
  have hmem : q ∈ varSig d := by rw [hsigd]; exact hq
  obtain ⟨p, hp, hpq⟩ := List.mem_map.mp hmem
  have hp1 : p.1 = q.1 := congrArg Prod.fst hpq
  obtain ⟨gv', h1, h2, _, _, h5⟩ := hmain p.1 p.2 hp gv (by rw [hp1]; exact hgv)
  refine ⟨gv', ?_, h2.trans hdims, ?_⟩
  · rw [← hp1]
    exact h1
  · rw [h5]
    exact ctorOK_copy_data_fn _ _ _ _ _ hctor

/-- The tile loop succeeds on a consistent group and keeps the template
well-formed. -/
theorem aggLoop_ok (ids jds kds : Int) (sig0 : List (String × List String))
    (hndsig : (sig0.map Prod.fst).Nodup) :
    ∀ (ds : List Dataset) (es : List TileExt) (g : GlobalDataset),
    ds.length = es.length →
    (∀ p ∈ ds.zip es, extMatches p.1 p.2) →
    (∀ d ∈ ds, varSig d = sig0) →
    (∀ d ∈ ds, ∀ p ∈ d.vars, wellRanked p.2) →
    templateOK sig0 g →
    ∃ g', aggLoop ids jds kds g ds = .ok g' ∧ templateOK sig0 g' := by
  intro ds
  induction ds with
  | nil =>
    intro es g _ _ _ _ hG
    exact ⟨g, rfl, hG⟩
  | cons d ds' ih =>
    intro es g hlen hext hsig hranks hG
    cases es with
    | nil => simp at hlen
    | cons e es' =>
      obtain ⟨g2, hg2run, hattrs2, hmain2, hother2⟩ :=
        agg_tile_ok ids jds kds g d e sig0
          (hext (d, e) (by rw [List.zip_cons_cons]; exact List.mem_cons_self _ _))
          (hsig d (List.mem_cons_self _ _)) hndsig (hranks d (List.mem_cons_self _ _)) hG
      have hG2 : templateOK sig0 g2 :=
        templateOK_after sig0 g g2 d e ids jds kds (hsig d (List.mem_cons_self _ _)) hmain2 hG
      obtain ⟨g', hg', hG'⟩ := ih es' g2 (by simpa using hlen)
        (fun p hp => hext p (by rw [List.zip_cons_cons]; exact List.mem_cons_of_mem _ hp))
        (fun d' hd' => hsig d' (List.mem_cons_of_mem _ hd'))
        (fun d' hd' => hranks d' (List.mem_cons_of_mem _ hd')) hG2
      refine ⟨g', ?_, hG'⟩
      unfold aggLoop
      rw [hg2run]
      exact hg'

/-- Running the tile loop over a disjoint, vertically full group tracks one
unstaggered variable exactly: afterwards its array is in the state where
every processed tile's rectangle holds that tile's interior values and
everything else is zero. -/
theorem aggLoop_tracks
    (ids jds kds kde : Int) (sig0 : List (String × List String))
    (hndsig : (sig0.map Prod.fst).Nodup)
    (n : String) (tvDims : List String)
    (hxm : "lon_u" ∉ tvDims) (hym : "lat_v" ∉ tvDims)
    (hnsig : (n, tvDims) ∈ sig0) :
    ∀ (ds : List Dataset) (es : List TileExt) (proc : List (Dataset × TileExt))
      (g : GlobalDataset),
    ds.length = es.length →
    (∀ p ∈ ds.zip es, extMatches p.1 p.2) →
    (∀ e ∈ es, e.kts = kds ∧ e.kte = kde) →
    (∀ d ∈ ds, varSig d = sig0) →
    (∀ d ∈ ds, ∀ p ∈ d.vars, wellRanked p.2) →
    List.Pairwise rectDisjoint (proc.map Prod.snd ++ es) →
    templateOK sig0 g →
    (∃ gv, g.vars.lookup n = some gv ∧ gv.dims = tvDims ∧ ctorOK gv.data tvDims.length ∧
       varState ids jds kds kde n tvDims proc gv.data) →
    ∃ g', aggLoop ids jds kds g ds = .ok g' ∧
      ∃ gv', g'.vars.lookup n = some gv' ∧ gv'.dims = tvDims ∧
        varState ids jds kds kde n tvDims (proc ++ ds.zip es) gv'.data := by
  intro ds
  induction ds with
  | nil =>
    intro es proc g hlen hext hvert hsig hranks hdisj hG hst
    obtain ⟨gv, h1, h2, _, h4⟩ := hst
    refine ⟨g, rfl, gv, h1, h2, ?_⟩
    rw [List.zip_nil_left, List.append_nil]
    exact h4
  | cons d ds' ih =>
    intro es proc g hlen hext hvert hsig hranks hdisj hG hst
    cases es with
    | nil => simp at hlen
    | cons e es' =>
      obtain ⟨gv, hgv, hgvdims, hgvctor, hstate⟩ := hst
      obtain ⟨g2, hg2run, hattrs2, hmain2, hother2⟩ :=
        agg_tile_ok ids jds kds g d e sig0
          (hext (d, e) (by rw [List.zip_cons_cons]; exact List.mem_cons_self _ _))
          (hsig d (List.mem_cons_self _ _)) hndsig (hranks d (List.mem_cons_self _ _)) hG
      have hG2 : templateOK sig0 g2 :=
        templateOK_after sig0 g g2 d e ids jds kds (hsig d (List.mem_cons_self _ _)) hmain2 hG
      have hsigd : varSig d = sig0 := hsig d (List.mem_cons_self _ _)
      have hnmem : (n, tvDims) ∈ varSig d := by rw [hsigd]; exact hnsig
      obtain ⟨⟨pn, ptv⟩, hpv, hpveq⟩ := List.mem_map.mp hnmem
      injection hpveq with hpn0 hptvdims0
      have hpn : pn = n := hpn0
      have hptvdims : ptv.dims = tvDims := hptvdims0
      rw [hpn] at hpv
      have hndvars : (d.vars.map Prod.fst).Nodup := by
        have hkeys : (varSig d).map Prod.fst = d.vars.map Prod.fst := by
          simp [varSig, List.map_map]
        rw [← hkeys, hsigd]
        exact hndsig
      have hlookn : d.vars.lookup n = some ptv :=
        lookup_of_mem_nodup d.vars n ptv hndvars hpv
      obtain ⟨gv2, hgv2, hd2, ha2, hs2, hdata2⟩ := hmain2 n ptv hpv gv hgv
      have hwrk : wellRanked ptv := hranks d (List.mem_cons_self _ _) (n, ptv) hpv
      have hgctor : ctorOK gv.data ptv.dims.length := by
        rw [hptvdims]
        exact hgvctor
      have hdisjP : ∀ q ∈ proc, rectDisjoint q.2 e := fun q hq =>
        (List.pairwise_append.mp hdisj).2.2 q.2 (List.mem_map_of_mem Prod.snd hq) e
          (List.mem_cons_self _ _)
      have hstep := varState_step ids jds kds kde n tvDims hxm hym proc d e ptv
        hlookn hptvdims hwrk gv.data hgctor
        (hvert e (List.mem_cons_self _ _)).1 (hvert e (List.mem_cons_self _ _)).2
        hdisjP hstate
      have hstate2 : varState ids jds kds kde n tvDims (proc ++ [(d, e)]) gv2.data := by
        rw [hdata2]
        exact hstep
      have hdisj2 : List.Pairwise rectDisjoint ((proc ++ [(d, e)]).map Prod.snd ++ es') := by
        simpa [List.map_append, List.append_assoc] using hdisj
      obtain ⟨g', hg', gv', h1, h2, h3⟩ := ih es' (proc ++ [(d, e)]) g2
        (by simpa using hlen)
        (fun p hp => hext p (by rw [List.zip_cons_cons]; exact List.mem_cons_of_mem _ hp))
        (fun e' he' => hvert e' (List.mem_cons_of_mem _ he'))
        (fun d' hd' => hsig d' (List.mem_cons_of_mem _ hd'))
        (fun d' hd' => hranks d' (List.mem_cons_of_mem _ hd')) hdisj2 hG2
        ⟨gv2, hgv2, hd2.trans hgvdims, by
          rw [hdata2]
          refine ctorOK_copy_data_fn _ _ _ _ _ ?_
          exact hgvctor, hstate2⟩
      refine ⟨g', ?_, gv', h1, h2, ?_⟩
      · unfold aggLoop
        rw [hg2run]
        exact hg'
      · rw [List.zip_cons_cons, List.append_cons]
        exact h3

/-- The template loop succeeds when every variable has rank 2..4. -/
theorem setupVars_ok (d : Dataset) (nx ny : Int) :
    ∀ vs : List (String × TVar),
    (∀ p ∈ vs, 2 ≤ p.2.dims.length ∧ p.2.dims.length ≤ 4) →
    ∃ gvs, setupVars d nx ny vs = .ok gvs := by
  intro vs
  induction vs with
  | nil => exact fun _ => ⟨[], rfl⟩
  | cons q rest ih =>
    intro hall
    obtain ⟨m0, v0⟩ := q
    obtain ⟨sd, hsd⟩ := allocVar_supported d nx ny v0 (hall (m0, v0) (List.mem_cons_self _ _))
    obtain ⟨tail, htail⟩ := ih (fun p hp => hall p (List.mem_cons_of_mem _ hp))
    exact ⟨_, by unfold setupVars; rw [hsd, htail]⟩

/-- With distinct names, each tile variable determines its template
entry. -/
theorem setupVars_lookup (d : Dataset) (nx ny : Int) :
    ∀ (vs : List (String × TVar)) (gvs : List (String × GVar)),
    setupVars d nx ny vs = .ok gvs → (vs.map Prod.fst).Nodup →
    ∀ m tv, (m, tv) ∈ vs →
    ∃ gv, gvs.lookup m = some gv ∧ gv.dims = tv.dims ∧ gv.attrs = tv.attrs ∧
      allocVar d nx ny tv = .ok (gv.shape, gv.data) := by
  intro vs
  induction vs with
  | nil =>
    intro gvs _ _ m tv hm
    simp at hm
  | cons q rest ih =>
    intro gvs h hnd m tv hm
    obtain ⟨m0, v0⟩ := q
    unfold setupVars at h
    cases ha : allocVar d nx ny v0 with
    | error e => rw [ha] at h; exact absurd h (by simp)
    | ok sd =>
      rw [ha] at h
      cases hs : setupVars d nx ny rest with
      | error e => rw [hs] at h; exact absurd h (by simp)
      | ok tail =>
        rw [hs] at h
        cases h
        rw [List.map_cons] at hnd
        have hpair := List.nodup_cons.mp hnd
        rcases List.mem_cons.mp hm with heq | hmem
        · injection heq with e1 e2
          subst e1
          subst e2
          refine ⟨⟨tv.dims, tv.attrs, sd.1, sd.2⟩, ?_, rfl, rfl, by rw [ha]⟩
          simp [List.lookup]
        · by_cases hk : m = m0
          · subst hk
            exact absurd (List.mem_map_of_mem Prod.fst hmem) hpair.1
          · obtain ⟨gv, hgv, h1, h2, h3⟩ := ih tail hs hpair.2 m tv hmem
            refine ⟨gv, ?_, h1, h2, h3⟩
            rw [List.lookup]
            rw [show (m == m0) = false from beq_eq_false_iff_ne.mpr hk]
            exact hgv

/-- A freshly allocated template array matches the variable's rank and is
zero everywhere. -/
theorem allocVar_ctorOK (d : Dataset) (nx ny : Int) (v : TVar)
    (shape : List Int) (data : NpArray)
    (h : allocVar d nx ny v = .ok (shape, data)) :
    ctorOK data v.dims.length ∧ ∀ y x : Int, zeroAt data y x := by
  unfold allocVar at h
  split at h
  · rename_i h2
    cases h
    exact ⟨h2, fun y x => rfl⟩
  · split at h
    · rename_i h3
      cases h
      exact ⟨h3, fun y x a => rfl⟩
    · split at h
      · rename_i h4
        cases h
        exact ⟨h4, fun y x t z => rfl⟩
      · exact absurd h (by simp)

/-- On a pairwise-disjoint group, a cell inside one tile's rectangle is
written exactly once. -/
theorem writeCountRect_eq_one (ids jds : Int) (exts : List TileExt) (y x : Int)
    (hdisj : List.Pairwise rectDisjoint exts)
    (e0 : TileExt) (he0 : e0 ∈ exts) (hw0 : writesRect ids jds e0 y x) :
    writeCountRect ids jds exts y x = 1 := by
  unfold writeCountRect
  induction exts with
  | nil => simp at he0
  | cons e rest ih =>
    rw [List.filter_cons]
    rcases List.mem_cons.mp he0 with rfl | hmem
    · rw [if_pos (by simpa using hw0)]
      have hempty : rest.filter (fun e2 => decide (writesRect ids jds e2 y x)) = [] := by
        rw [List.filter_eq_nil_iff]
        intro b hb
        simp only [decide_eq_true_eq]
        intro hwb
        exact not_writesRect_of_disjoint ids jds e0 b y x hw0
          ((List.pairwise_cons.mp hdisj).1 b hb) hwb
      rw [hempty]
      rfl
    · have hne : ¬ writesRect ids jds e y x := by
        intro hwe
        exact not_writesRect_of_disjoint ids jds e e0 y x hwe
          ((List.pairwise_cons.mp hdisj).1 e0 hmem) hw0
      rw [if_neg (by simpa using hne)]
      exact ih (List.pairwise_cons.mp hdisj).2 hmem

/-- Each member of the second list of a same-length zip has a partner. -/
theorem exists_zip_pair {α β : Type} (ds : List α) (es : List β) (e : β)
    (hlen : ds.length = es.length) (he : e ∈ es) : ∃ d, (d, e) ∈ ds.zip es := by
  induction es generalizing ds with
  | nil => simp at he
  | cons e0 es' ih =>
    cases ds with
    | nil => simp at hlen
    | cons d0 ds' =>
      rcases List.mem_cons.mp he with rfl | hmem
      · exact ⟨d0, by rw [List.zip_cons_cons]; exact List.mem_cons_self _ _⟩
      · obtain ⟨d, hd⟩ := ih ds' (by simpa using hlen) hmem
        exact ⟨d, by rw [List.zip_cons_cons]; exact List.mem_cons_of_mem _ hd⟩

/-- C1 (amended): on a timestep group whose tile extents exactly partition
the domain horizontally, every tile spanning the full vertical extent, the
aggregated dataset matches the directly-constructed reference for every
variable without a staggering marker: each global cell inside the domain
is written exactly once, and it holds the value of the owning tile's
interior (mapped by `start_domain − start_memory` on each axis), so no
such cell retains the zero fill. -/
theorem agg_partition_correct
    (first : Dataset) (rest : List Dataset) (exts : List TileExt)
    (ids ide jds jde kds kde : Int)
    (hdom : get_dims first "d" = .ok [ids, ide, jds, jde, kds, kde])
    (hlen : (first :: rest).length = exts.length)
    (hext : ∀ p ∈ (first :: rest).zip exts, extMatches p.1 p.2)
    (hvert : ∀ e ∈ exts, e.kts = kds ∧ e.kte = kde)
    (hdisj : List.Pairwise rectDisjoint exts)
    (hcover : coversDomain ids ide jds jde exts)
    (hvars : ∀ d ∈ first :: rest, varSig d = varSig first)
    (hnodup : (first.vars.map Prod.fst).Nodup)
    (hranks : ∀ d ∈ first :: rest, ∀ p ∈ d.vars, wellRanked p.2) :
    ∃ g, agg_core (first :: rest) = .ok g ∧
      ∀ n tv, (n, tv) ∈ first.vars → "lon_u" ∉ tv.dims → "lat_v" ∉ tv.dims →
        ∃ gv, g.vars.lookup n = some gv ∧ gv.dims = tv.dims ∧
          ∀ y x : Int, 0 ≤ y → y ≤ jde - jds → 0 ≤ x → x ≤ ide - ids →
            writeCountRect ids jds exts y x = 1 ∧
            ∃ p ∈ (first :: rest).zip exts, writesRect ids jds p.2 y x ∧
              ∃ tvd, p.1.vars.lookup n = some tvd ∧
                dataAgrees tv.dims p.2 ids jds kds kde gv.data tvd.data y x := by
  have hnodupsig : ((varSig first).map Prod.fst).Nodup := by
    have hkeys : (varSig first).map Prod.fst = first.vars.map Prod.fst := by
      simp [varSig, List.map_map]
    rw [hkeys]
    exact hnodup
  have hfirstranks := hranks first (List.mem_cons_self _ _)
  have hlens : ∀ p ∈ first.vars, 2 ≤ p.2.dims.length ∧ p.2.dims.length ≤ 4 :=
    fun p hp => ctorOK_len _ _ (hfirstranks p hp)
  obtain ⟨gvs, hgvs⟩ := setupVars_ok first (ide - ids + 1) (jde - jds + 1) first.vars hlens
  have hsu : set_up_dataset first = .ok ⟨first.attrs, gvs⟩ := by
    simp only [set_up_dataset, hdom, hgvs]
  have hG0 : templateOK (varSig first) ⟨first.attrs, gvs⟩ := by
    intro q hq
    obtain ⟨p, hp, hpq⟩ := List.mem_map.mp hq
    have hp1 : p.1 = q.1 := congrArg Prod.fst hpq
    have hp2 : p.2.dims = q.2 := congrArg Prod.snd hpq
    obtain ⟨gv, hgv, h1, h2, h3⟩ :=
      setupVars_lookup first _ _ first.vars gvs hgvs hnodup p.1 p.2 (by
        obtain ⟨a, b⟩ := p
        exact hp)
    refine ⟨gv, by rw [← hp1]; exact hgv, h1.trans hp2, ?_⟩
    rw [← hp2]
    exact (allocVar_ctorOK _ _ _ _ _ _ h3).1
  obtain ⟨gfin, hrun, hGfin⟩ := aggLoop_ok ids jds kds (varSig first) hnodupsig
    (first :: rest) exts ⟨first.attrs, gvs⟩ hlen hext hvars hranks hG0
  have hcore : agg_core (first :: rest) = .ok gfin := by
    simp only [agg_core, hsu, hdom]
    exact hrun
  refine ⟨gfin, hcore, ?_⟩
  intro n tv hmem hxm hym
  have hnsig : (n, tv.dims) ∈ varSig first :=
    List.mem_map.mpr ⟨(n, tv), hmem, rfl⟩
  obtain ⟨gv0, hgv0, hgd0, _, halloc0⟩ :=
    setupVars_lookup first _ _ first.vars gvs hgvs hnodup n tv hmem
  have hzero : varState ids jds kds kde n tv.dims [] gv0.data := by
    intro y x
    constructor
    · intro _
      exact (allocVar_ctorOK _ _ _ _ _ _ halloc0).2 y x
    · intro q hq
      simp at hq
  have hctor0 : ctorOK gv0.data tv.dims.length :=
    (allocVar_ctorOK _ _ _ _ _ _ halloc0).1
  obtain ⟨g2, hrun2, gv', h1, h2, h3⟩ := aggLoop_tracks ids jds kds kde
    (varSig first) hnodupsig n tv.dims hxm hym hnsig
    (first :: rest) exts [] ⟨first.attrs, gvs⟩ hlen hext hvert hvars hranks
    (by simpa using hdisj) hG0 ⟨gv0, hgv0, hgd0, hctor0, hzero⟩
  have hg2fin : g2 = gfin := by
    rw [hrun] at hrun2
    exact (Except.ok.inj hrun2).symm
  subst hg2fin
  refine ⟨gv', h1, h2, ?_⟩
  intro y x hy1 hy2 hx1 hx2
  obtain ⟨e0, he0, ho1, ho2, ho3, ho4⟩ :=
    hcover (ids + x) (by rw [Finset.mem_Icc]; omega) (jds + y) (by rw [Finset.mem_Icc]; omega)
  have hw0 : writesRect ids jds e0 y x := by
    unfold writesRect
    omega
  refine ⟨writeCountRect_eq_one ids jds exts y x hdisj e0 he0 hw0, ?_⟩
  obtain ⟨d0, hd0pair⟩ := exists_zip_pair (first :: rest) exts e0 hlen he0
  obtain ⟨tvd, hl, hag⟩ := (h3 y x).2 (d0, e0) (by simpa using hd0pair) hw0
  exact ⟨(d0, e0), hd0pair, hw0, tvd, hl, hag⟩

/-- C1 (counterexample to the claim as stated): the two tiles `uTile1`,
`uTile2` exactly partition the domain i in `[1,2]`, j = 1 (disjoint
rectangles, full cover, full vertical extent), yet the x-staggered rank-3
variable `"u"` has the in-domain cell `(a, y, x) = (0, 0, 1)` written by
both tiles (the widened copy regions overlap on the shared edge), not
exactly once; the surviving value is whichever tile is copied last (20 in
sorted order, 10 in the reverse order), not a well-defined reference
value. -/
theorem agg_partition_counterexample :
    get_dims uTile1 "d" = .ok [1, 2, 1, 1, 1, 1] ∧
    extMatches uTile1 uExt1 ∧
    extMatches uTile2 uExt2 ∧
    List.Pairwise rectDisjoint [uExt1, uExt2] ∧
    coversDomain 1 2 1 1 [uExt1, uExt2] ∧
    varSig uTile2 = varSig uTile1 ∧
    uExt1.kts = 1 ∧ uExt1.kte = 1 ∧ uExt2.kts = 1 ∧ uExt2.kte = 1 ∧
    (0 : Int) ≤ 1 ∧ (1 : Int) ≤ 2 - 1 ∧
    writeCountVar 1 1 1 ["time", "lat", "lon_u"] [uExt1, uExt2] 0 1 = 2 ∧
    outCell3 (agg_core [uTile1, uTile2]) "u" 0 0 1 = some 20 ∧
    outCell3 (agg_core [uTile2, uTile1]) "u" 0 0 1 = some 10 := by
  refine ⟨by rfl, by decide, by decide, by decide, by decide, by decide, by decide,
    by decide, by decide, by decide, by decide, by decide, by decide, by rfl, by rfl⟩

/-- Witness for `agg_partition_correct` on the concrete 2-tile group
`[tileA, tileB]`: the aggregation succeeds and the in-domain cells are
written exactly once. -/
theorem agg_partition_correct_witness :
    writeCountRect 1 1 [extA, extB] 0 0 = 1 ∧
    writeCountRect 1 1 [extA, extB] 1 1 = 1 ∧
    isOkE (agg_core [tileA, tileB]) = true := by
  obtain ⟨g, hg, hall⟩ := agg_partition_correct tileA [tileB] [extA, extB] 1 2 1 2 1 1
    (by rfl) (by rfl) (by decide) (by decide) (by decide) (by decide) (by decide)
    (by decide) (by decide)
  obtain ⟨gv, hgv, hdims, hcells⟩ := hall "p"
    ⟨["lat", "lon"], [], .a2 fun y x => 100 + 10 * y + x⟩
    (List.mem_singleton.mpr rfl) (by decide) (by decide)
  refine ⟨(hcells 0 0 (by decide) (by decide) (by decide) (by decide)).1,
    (hcells 1 1 (by decide) (by decide) (by decide) (by decide)).1, ?_⟩
  rw [hg]
  rfl

end AggFiles
